import Mathlib

/-!
# KanbanBoard: the task store, the move handler and the filter of `src/script.js`

A shallow embedding of `TaskManager` (lines 49-135), `UIManager.filterTasks`
(lines 308-332) and `KanbanBoardApp.handleTaskMove` (lines 858-892).

JavaScript objects are mutated in place in the source; here every operation
takes the collection and returns the new one together with its return value.
A task object is a record of the eight properties of the data model, each of
which may be absent.  The collection `this.tasks` is the list of its own
properties in enumeration order, each bucket key with its array.
-/

namespace Kanban

/-! ## Values and task objects -/

/-- A JavaScript primitive that a task property can hold: `null`, an integer
number or a string. -/
inductive Val where
  | null
  | num (n : Int)
  | str (s : String)
  deriving DecidableEq, Repr

/-- A task object. `none` means the object has no such property (reading it
gives `undefined`). The same record serves for stored tasks, for the field
set handed to `addTask` and for the `updates` handed to `updateTask`. -/
structure Task where
  id : Option Val := none
  createdAt : Option Val := none
  status : Option Val := none
  title : Option Val := none
  description : Option Val := none
  priority : Option Val := none
  label : Option Val := none
  dueDate : Option Val := none
  deriving DecidableEq, Repr

/-- The field set that the task form delivers (`getFormData`, lines 518-524):
the five properties title, description, priority, label and dueDate, each a
value or missing. -/
structure Fields where
  title : Option Val := none
  description : Option Val := none
  priority : Option Val := none
  label : Option Val := none
  dueDate : Option Val := none
  deriving DecidableEq, Repr

/-- A field set as the object handed to `addTask`. -/
def Fields.toTask (f : Fields) : Task :=
  { title := f.title, description := f.description, priority := f.priority,
    label := f.label, dueDate := f.dueDate }

/-- The object `this.tasks`: bucket keys with their arrays, in the order in
which `Object.entries` and `for ... in` enumerate them. -/
abbrev Collection := List (String × List Task)

/-- The two clock reads of `addTask`: `Date.now()` and
`new Date().toISOString()`. -/
structure Clock where
  now : Int
  iso : String
  deriving DecidableEq, Repr

/-- The filter state `this.filters` of `UIManager` (lines 163-167). -/
structure FilterSet where
  search : String
  priority : String
  label : String
  deriving DecidableEq, Repr

/-- What `handleTaskMove` does to its collaborators: a call of
`localStorageManager.save` and a call of `uiManager.renderTasks`. -/
inductive Effect where
  | save (data : Collection)
  | render (tasks : Collection)
  deriving DecidableEq, Repr

/-- The three status keys of the board. -/
def statusKeys : List String := ["todo", "inprogress", "done"]

/-- The seed of `loadTasksFromStorage` (lines 784-788) when storage is empty. -/
def emptyBoard : Collection := [("todo", []), ("inprogress", []), ("done", [])]

/-- Object spread `{...base, ...over}` and `Object.assign(base, over)`: every
property that `over` has replaces the one of `base`. -/
def spread (base over : Task) : Task :=
  { id := over.id <|> base.id
    createdAt := over.createdAt <|> base.createdAt
    status := over.status <|> base.status
    title := over.title <|> base.title
    description := over.description <|> base.description
    priority := over.priority <|> base.priority
    label := over.label <|> base.label
    dueDate := over.dueDate <|> base.dueDate }

/-- The property key that `this.tasks[v]` uses for a value `v`
(`String(v)`; integers print in decimal). -/
def toKey : Option Val → String
  | none => "undefined"
  | some Val.null => "null"
  | some (Val.num n) => toString n
  | some (Val.str s) => s

/-! ## The collection as an object -/

/-- `tasks[key]`: the bucket stored under `key`, if there is one. -/
def getBucket : Collection → String → Option (List Task)
  | [], _ => none
  | (k, ts) :: rest, key => if k = key then some ts else getBucket rest key

/-- `tasks[key] = bucket` for a key the object already has. -/
def setBucket : Collection → String → List Task → Collection
  | [], _, _ => []
  | (k, ts) :: rest, key, bucket =>
    if k = key then (k, bucket) :: rest else (k, ts) :: setBucket rest key bucket

/-- All stored tasks, bucket after bucket. -/
def allTasks (tasks : Collection) : List Task :=
  tasks.flatMap Prod.snd

/-- The bucket keys, in enumeration order. -/
def keys (tasks : Collection) : List String :=
  tasks.map Prod.fst

/-! ## TaskManager -/

/-- The object literal `newTask` of `addTask` (lines 67-72): id, createdAt and
status are set first and the properties of `task` are spread over them. -/
def newTaskOf (task : Task) (status : String) (clock : Clock) : Task :=
  spread
    { id := some (Val.num clock.now)
      createdAt := some (Val.str clock.iso)
      status := some (Val.str status) } task

/-- The names of the properties that every object inherits from
`Object.prototype`. For such a name `this.tasks[name]` is a function (for
`__proto__` the prototype object) unless the collection has a bucket of that
name of its own: a truthy value without a `push` and without a `filter`. -/
def inheritedKeys : List String :=
  ["constructor", "__proto__", "hasOwnProperty", "isPrototypeOf", "propertyIsEnumerable",
   "toLocaleString", "toString", "valueOf", "__defineGetter__", "__defineSetter__",
   "__lookupGetter__", "__lookupSetter__"]

/-- `TaskManager.addTask` (lines 61-81). The guard of line 63 makes a bucket
when `this.tasks[status]` is falsy: the collection has no bucket of that name
and inherits no property of that name. When `this.tasks[status]` is an
inherited property, `push` (line 74) throws and the `catch` returns `null`,
nothing having been stored. -/
def addTask (tasks : Collection) (task : Task) (status : String) (clock : Clock) :
    Collection × Option Task :=
  let tasks1 :=
    if (getBucket tasks status).isNone && !inheritedKeys.contains status
    then tasks ++ [(status, [])] else tasks
  let newTask := newTaskOf task status clock
  match getBucket tasks1 status with
  | some bucket => (setBucket tasks1 status (bucket ++ [newTask]), some newTask)
  | none => (tasks1, none)

/-- `TaskManager.removeTask` (lines 83-93): every bucket is filtered, and the
call returns `true`. -/
def removeTask (tasks : Collection) (taskId : Val) : Collection × Bool :=
  (tasks.map (fun b => (b.1, b.2.filter (fun task => task.id != some taskId))), true)

/-- `Object.assign(task, updates)` on the first task of a bucket whose id is
`taskId`. -/
def assignFirst : List Task → Val → Task → List Task
  | [], _, _ => []
  | t :: rest, taskId, updates =>
    if t.id == some taskId then spread t updates :: rest
    else t :: assignFirst rest taskId updates

/-- `TaskManager.updateTask` (lines 95-109). -/
def updateTask : Collection → Val → Task → Collection × Option Task
  | [], _, _ => ([], none)
  | (k, ts) :: rest, taskId, updates =>
    match ts.find? (fun task => task.id == some taskId) with
    | some task => ((k, assignFirst ts taskId updates) :: rest, some (spread task updates))
    | none =>
      let r := updateTask rest taskId updates
      ((k, ts) :: r.1, r.2)

/-- `TaskManager.getTaskById` (lines 111-122). -/
def getTaskById : Collection → Val → Option Task
  | [], _ => none
  | (_, ts) :: rest, taskId =>
    match ts.find? (fun task => task.id == some taskId) with
    | some task => some task
    | none => getTaskById rest taskId

/-- `TaskManager.getTasksByStatus` (lines 124-126), for a status that names a
bucket or no property at all; for the name of an inherited property the
source hands out that property, which is no array. -/
def getTasksByStatus (tasks : Collection) (status : String) : List Task :=
  (getBucket tasks status).getD []

/-- `TaskManager.getTasksCount` (lines 132-134). -/
def getTasksCount (tasks : Collection) : Nat :=
  tasks.foldl (fun acc b => acc + b.2.length) 0

/-! ## UIManager.filterTasks -/

/-- What the model takes from the JavaScript engine as given:
`String.prototype.toLowerCase`, which the listener of the search box (line
286) and `filterTasks` (lines 316, 317 and 325) call. Nothing is fixed about
the function: every definition that lower-cases takes the engine, and the
theorems hold for every engine. -/
class Engine where
  toLowerCase : String → String

export Engine (toLowerCase)

/-- The engine of the examples: `toLowerCase` lower-cases the letters A to Z
and keeps every other character, as `String.prototype.toLowerCase` does on
ASCII text. Only the concrete examples use it. -/
instance asciiEngine : Engine := ⟨fun s => ⟨s.data.map Char.toLower⟩⟩

/-- `String.prototype.includes`: `sub` occurs in `s`. -/
def includes (s sub : String) : Bool :=
  s.data.tails.any (fun t => sub.data.isPrefixOf t)

/-- `v.toLowerCase()` for a property value: a `TypeError` (`none`) unless the
value is a string. -/
def lowerOf [Engine] : Option Val → Option String
  | some (Val.str s) => some (toLowerCase s)
  | _ => none

/-- `matchesSearch` (lines 315-317), `none` when the expression throws. -/
def matchesSearch [Engine] (filters : FilterSet) (task : Task) : Option Bool :=
  if filters.search = "" then some true
  else
    match lowerOf task.title with
    | none => none
    | some title =>
      if includes title filters.search then some true
      else
        match lowerOf task.description with
        | none => none
        | some description => some (includes description filters.search)

/-- `matchesLabel` (lines 320-321). -/
def matchesLabel (filters : FilterSet) (task : Task) : Bool :=
  filters.label == "all" || task.label == some (Val.str filters.label)

/-- `matchesPriority` (lines 324-325), `none` when the expression throws. -/
def matchesPriority [Engine] (filters : FilterSet) (task : Task) : Option Bool :=
  if filters.priority = "all" then some true
  else
    match lowerOf task.priority with
    | none => none
    | some priority => some (priority == toLowerCase filters.priority)

/-- The callback of `statusTasks.filter` (lines 313-328). -/
def matchesTask [Engine] (filters : FilterSet) (task : Task) : Option Bool :=
  match matchesSearch filters task with
  | none => none
  | some s =>
    match matchesPriority filters task with
    | none => none
    | some p => some (s && matchesLabel filters task && p)

/-- `Array.prototype.filter` with a callback that may throw. -/
def filterBucket [Engine] (filters : FilterSet) : List Task → Option (List Task)
  | [] => some []
  | t :: rest =>
    match matchesTask filters t with
    | none => none
    | some keep =>
      match filterBucket filters rest with
      | none => none
      | some kept => some (if keep then t :: kept else kept)

/-- `UIManager.filterTasks` (lines 308-332): a new object with every bucket
filtered; `none` when the callback throws. -/
def filterTasks [Engine] (filters : FilterSet) : Collection → Option Collection
  | [] => some []
  | (k, ts) :: rest =>
    match filterBucket filters ts with
    | none => none
    | some kept =>
      match filterTasks filters rest with
      | none => none
      | some done => some ((k, kept) :: done)

/-! ## KanbanBoardApp.handleTaskMove -/

/-- `KanbanBoardApp.handleTaskMove` (lines 858-892): the collection after the
call and the calls made to storage and to the renderer. Reading
`this.tasks[task.status]` for a key the object lacks gives `undefined` or an
inherited property, whose `.filter` throws; the `catch` leaves the collection
as `removeTask` left it. When `addTask` returns `null` (line 875) the task
stays removed and nothing is saved or rendered. -/
def handleTaskMove [Engine] (tasks : Collection) (filters : FilterSet) (taskId : Val)
    (newStatus : String) (clock : Clock) : Collection × List Effect :=
  match getTaskById tasks taskId with
  | none => (tasks, [])
  | some task =>
    if task.status = some (Val.str newStatus) then (tasks, [])
    else
      let tasks1 := (removeTask tasks taskId).1
      match getBucket tasks1 (toKey task.status) with
      | none => (tasks1, [])
      | some bucket =>
        let tasks2 := setBucket tasks1 (toKey task.status)
          (bucket.filter (fun t => t.id != some taskId))
        let added := addTask tasks2 { task with status := some (Val.str newStatus) } newStatus clock
        match added.2 with
        | none => (added.1, [])
        | some _ =>
          (added.1,
            Effect.save added.1 ::
              (match filterTasks filters added.1 with
               | some filtered => [Effect.render filtered]
               | none => []))

/-! ## Predicates of the specification -/

/-- JavaScript truthiness of a property value (`!task[field]` is its negation). -/
def truthy : Option Val → Bool
  | none => false
  | some Val.null => false
  | some (Val.num n) => n != 0
  | some (Val.str s) => s != ""

/-- A required field (title, description, priority, label) is missing or
empty: the test `!task[field]` of the form validation succeeds for one. -/
def missingRequired (task : Task) : Bool :=
  !truthy task.title || !truthy task.description || !truthy task.priority || !truthy task.label

/-- The read `this.tasks[status]` gives an array after the guard of `addTask`:
the collection has a bucket of that name, or the name is that of no inherited
property, so that the guard makes the bucket. -/
def storable (tasks : Collection) (status : String) : Bool :=
  (getBucket tasks status).isSome || !inheritedKeys.contains status

/-- The property is a string. -/
def isStr : Option Val → Bool
  | some (Val.str _) => true
  | _ => false

/-- The task has a string for title, description and priority, as the data
model requires of a stored task. -/
def hasText (t : Task) : Bool :=
  isStr t.title && isStr t.description && isStr t.priority

/-- The text of a string property (empty for anything else). -/
def textOf : Option Val → String
  | some (Val.str s) => s
  | _ => ""

/-- Search predicate: an empty search passes every task, otherwise the search
string occurs in the lower-cased title or in the lower-cased description. -/
def passesSearch [Engine] (filters : FilterSet) (t : Task) : Bool :=
  filters.search == "" ||
    includes (toLowerCase (textOf t.title)) filters.search ||
    includes (toLowerCase (textOf t.description)) filters.search

/-- Label predicate: "all" passes every task, otherwise the label is exactly
the filter's. -/
def passesLabel (filters : FilterSet) (t : Task) : Bool :=
  filters.label == "all" || t.label == some (Val.str filters.label)

/-- Priority predicate: "all" passes every task, otherwise the priorities are
equal up to letter case. -/
def passesPriority [Engine] (filters : FilterSet) (t : Task) : Bool :=
  filters.priority == "all" ||
    toLowerCase (textOf t.priority) == toLowerCase filters.priority

/-- A task passes the filter set when all three predicates pass. -/
def passes [Engine] (filters : FilterSet) (t : Task) : Bool :=
  passesSearch filters t && passesLabel filters t && passesPriority filters t

/-- The callback of `filterTasks` can be evaluated on the task: with a search
set the title is a string, and so is the description unless the title holds
the search; with a priority filter set the priority is a string. -/
def evaluable [Engine] (filters : FilterSet) (t : Task) : Bool :=
  (filters.search == "" ||
    (isStr t.title &&
      (includes (toLowerCase (textOf t.title)) filters.search || isStr t.description))) &&
  (filters.priority == "all" || isStr t.priority)

/-! ## Sequences of operations and the invariants of the data model -/

/-- The three statuses, the values that the drop targets and the default of
`addTask` can pass. -/
inductive Status where
  | todo
  | inprogress
  | done
  deriving DecidableEq, Repr

/-- The bucket key of a status. -/
def Status.key : Status → String
  | Status.todo => "todo"
  | Status.inprogress => "inprogress"
  | Status.done => "done"

/-- One operation on the store: create (`addTask`), update (`updateTask`),
move (`handleTaskMove`) or remove (`removeTask`), with its arguments and the
clock readings it meets. -/
inductive Op where
  | create (fields : Fields) (status : Status) (clock : Clock)
  | update (taskId : Val) (patch : Task)
  | move (taskId : Val) (newStatus : Status) (filters : FilterSet) (clock : Clock)
  | remove (taskId : Val)
  deriving DecidableEq, Repr

/-- The collection after one operation. -/
def step [Engine] (tasks : Collection) : Op → Collection
  | Op.create fields status clock => (addTask tasks fields.toTask status.key clock).1
  | Op.update taskId patch => (updateTask tasks taskId patch).1
  | Op.move taskId newStatus filters clock =>
    (handleTaskMove tasks filters taskId newStatus.key clock).1
  | Op.remove taskId => (removeTask tasks taskId).1

/-- The collection after a sequence of operations. -/
def run [Engine] (tasks : Collection) (ops : List Op) : Collection :=
  ops.foldl step tasks

/-- Every stored task's status property is the key of its bucket. -/
def StatusMatches (tasks : Collection) : Prop :=
  ∀ b ∈ tasks, ∀ t ∈ b.2, t.status = some (Val.str b.1)

/-- The ids of all stored tasks are pairwise distinct. -/
def UniqueIds (tasks : Collection) : Prop :=
  ((allTasks tasks).map (fun t => t.id)).Nodup

/-- Every stored task is in exactly one bucket. -/
def SingleBucket (tasks : Collection) : Prop :=
  ∀ t ∈ allTasks tasks, ∃! key, ∃ ts, (key, ts) ∈ tasks ∧ t ∈ ts

/-- The operation is no update whose patch carries a status property. -/
def Op.noStatus : Op → Bool
  | Op.update _ patch => patch.status.isNone
  | _ => true

/-- The operation is no update whose patch carries an id property. -/
def Op.noId : Op → Bool
  | Op.update _ patch => patch.id.isNone
  | _ => true

/-- The `Date.now()` readings of the creates of a sequence, in order. -/
def createNows : List Op → List Int
  | [] => []
  | Op.create _ _ clock :: rest => clock.now :: createNows rest
  | _ :: rest => createNows rest

/-- The ids are pairwise distinct and every one is a number of `used`: the
invariant carried along a sequence of operations, `used` being the
`Date.now()` readings of the creates so far. -/
def IdsFrom (c : Collection) (used : List Int) : Prop :=
  UniqueIds c ∧ ∀ t ∈ allTasks c, ∃ n ∈ used, t.id = some (Val.num n)

/-! ## Concrete inputs of the examples -/

/-- The field set of the scenario of the specification. -/
def specFields : Fields :=
  { title := some (Val.str "Write spec"), description := some (Val.str "x"),
    priority := some (Val.str "high"), label := some (Val.str "work") }

/-- A second valid field set. -/
def otherFields : Fields :=
  { title := some (Val.str "Review"), description := some (Val.str "y"),
    priority := some (Val.str "low"), label := some (Val.str "home") }

/-- A field set whose title is the empty string. -/
def emptyTitleFields : Fields :=
  { title := some (Val.str ""), description := some (Val.str "x"),
    priority := some (Val.str "high"), label := some (Val.str "work") }

/-- The board after one `addTask` of the scenario's field set at clock
reading 5: one task with id 5 in todo. -/
def oneTaskBoard : Collection :=
  (addTask emptyBoard specFields.toTask "todo" ⟨5, "t"⟩).1

/-- The board after one `addTask` of a field set without title. -/
def untitledBoard : Collection :=
  (addTask emptyBoard
    ({ description := some (Val.str "x"), priority := some (Val.str "high"),
       label := some (Val.str "work") } : Fields).toTask "todo" ⟨5, "t"⟩).1

/-- A stored task: "Write spec", id 1, in todo. -/
def taskA : Task :=
  { id := some (Val.num 1), createdAt := some (Val.str "a"), status := some (Val.str "todo"),
    title := some (Val.str "Write spec"), description := some (Val.str "x"),
    priority := some (Val.str "high"), label := some (Val.str "work") }

/-- A stored task: "Buy milk", id 2, in todo. -/
def taskB : Task :=
  { id := some (Val.num 2), createdAt := some (Val.str "b"), status := some (Val.str "todo"),
    title := some (Val.str "Buy milk"), description := some (Val.str "two litres"),
    priority := some (Val.str "Low"), label := some (Val.str "home") }

/-- A stored task: "Read", id 3, in done. -/
def taskC : Task :=
  { id := some (Val.num 3), createdAt := some (Val.str "c"), status := some (Val.str "done"),
    title := some (Val.str "Read"), description := some (Val.str "the spec"),
    priority := some (Val.str "low"), label := some (Val.str "work") }

/-- A second stored task with id 1: "Call Bob", in todo. -/
def taskA2 : Task :=
  { id := some (Val.num 1), createdAt := some (Val.str "a"), status := some (Val.str "todo"),
    title := some (Val.str "Call Bob"), description := some (Val.str "y"),
    priority := some (Val.str "low"), label := some (Val.str "home") }

/-- A board whose two todo tasks share the id 1. -/
def sharedIdBoard : Collection :=
  [("todo", [taskA, taskA2]), ("inprogress", []), ("done", [])]

/-- A board with two todo tasks and one done task. -/
def threeTaskBoard : Collection :=
  [("todo", [taskA, taskB]), ("inprogress", []), ("done", [taskC])]

/-- The task "Write spec" with the status "inprogress". -/
def taskADrifted : Task :=
  { taskA with status := some (Val.str "inprogress") }

/-- A board on which "Write spec" sits in todo while its status property says
"inprogress", as an update whose patch carries a status leaves it. -/
def driftedBoard : Collection :=
  [("todo", [taskADrifted, taskB]), ("inprogress", []), ("done", [taskC])]

/-- A sequence of five operations: create, update of the title, move to done,
a second create, remove of the first task. -/
def exampleOps : List Op :=
  [Op.create specFields Status.todo ⟨5, "t"⟩,
   Op.update (Val.num 5) { title := some (Val.str "Write the spec") },
   Op.move (Val.num 5) Status.done ⟨"", "all", "all"⟩ ⟨6, "u"⟩,
   Op.create otherFields Status.inprogress ⟨7, "v"⟩,
   Op.remove (Val.num 5)]

/-! ## UIManager.escapeHtml -/

/-- The character `&`. -/
def amp : Char := Char.ofNat 38

/-- The character `<`. -/
def ltChar : Char := Char.ofNat 60

/-- The character `>`. -/
def gtChar : Char := Char.ofNat 62

/-- The double quote. -/
def quote : Char := Char.ofNat 34

/-- The single quote. -/
def apostrophe : Char := Char.ofNat 39

/-- The call `s.replace(/c/g, replacement)` for a one-character pattern: every
occurrence of `c` gives way to `replacement`. -/
def replaceAll (c : Char) (replacement : String) (s : String) : String :=
  ⟨s.data.flatMap (fun x => if x = c then replacement.data else [x])⟩

/-- `UIManager.escapeHtml` (lines 493-500): the five replacements in the order
of the source, `&` first. -/
def escapeHtml (text : String) : String :=
  replaceAll apostrophe "&#039;"
    (replaceAll quote "&quot;"
      (replaceAll gtChar "&gt;"
        (replaceAll ltChar "&lt;"
          (replaceAll amp "&amp;" text))))

/-- The five entities that `escapeHtml` writes. -/
def entities : List String := ["&amp;", "&lt;", "&gt;", "&quot;", "&#039;"]

/-- What `escapeHtml` makes of one character. -/
def escapeOne (c : Char) : List Char :=
  if c = amp then "&amp;".data
  else if c = ltChar then "&lt;".data
  else if c = gtChar then "&gt;".data
  else if c = quote then "&quot;".data
  else if c = apostrophe then "&#039;".data
  else [c]

/-- An `&` in the text starts one of the five entities. -/
def AmpStartsEntity (out : List Char) : Prop :=
  ∀ pre post, out = pre ++ amp :: post → ∃ e ∈ entities, e.data <+: amp :: post

/-! ## FormManager -/

/-- What `FormData.get` gives for the five fields of the task form: the text
of the field, or `null` (`none`) when the form has no such field. -/
structure FormInput where
  title : Option String := none
  description : Option String := none
  priority : Option String := none
  label : Option String := none
  dueDate : Option String := none
  deriving DecidableEq, Repr

/-- The property value that `formData.get(name)` puts into the task record. -/
def formValue : Option String → Option Val
  | some s => some (Val.str s)
  | none => some Val.null

/-- The object literal `task` of `getFormData` (lines 518-524). -/
def FormInput.toFields (form : FormInput) : Fields :=
  { title := formValue form.title
    description := formValue form.description
    priority := formValue form.priority
    label := formValue form.label
    dueDate := formValue form.dueDate }

/-- `FormManager.validateFormData` (lines 533-554). The parameter `validDate`
stands for the date parser of the platform: `validDate v` is
`!isNaN(new Date(v).getTime())`. -/
def validateFormData (validDate : Val → Bool) (task : Task) : Bool :=
  if !truthy task.title then false
  else if !truthy task.description then false
  else if !truthy task.priority then false
  else if !truthy task.label then false
  else
    match task.dueDate with
    | some v => if truthy (some v) && !validDate v then false else true
    | none => true

/-- `FormManager.getFormData` (lines 514-531): the task record, or `null`
when the validation fails. -/
def getFormData (validDate : Val → Bool) (form : FormInput) : Option Fields :=
  if validateFormData validDate form.toFields.toTask then some form.toFields else none

/-- What `UIManager.handleFormSubmit` (lines 361-372) does: it dispatches the
`task-submit` event with the record, or shows an error message. -/
inductive SubmitOutcome where
  | dispatched (formData : Fields)
  | errorShown (message : String)
  deriving DecidableEq, Repr

/-- `UIManager.handleFormSubmit` (lines 361-372). -/
def handleFormSubmit (validDate : Val → Bool) (form : FormInput) : SubmitOutcome :=
  match getFormData validDate form with
  | some formData => SubmitOutcome.dispatched formData
  | none => SubmitOutcome.errorShown "Please fill all required fields"

/-- The form field is present and not empty. -/
def presentNonEmpty : Option String → Bool
  | some s => s != ""
  | none => false

/-- The rule of the data model on a form record: title, description, priority
and label are present and non-empty, and the due date is absent, empty or a
text that parses to a valid date. -/
def satisfiesFormRule (validDate : Val → Bool) (form : FormInput) : Bool :=
  presentNonEmpty form.title && presentNonEmpty form.description &&
    presentNonEmpty form.priority && presentNonEmpty form.label &&
    (match form.dueDate with
     | none => true
     | some d => d == "" || validDate (Val.str d))

/-- A date parser for the examples: it accepts the texts of ten characters. -/
def tenCharDate : Val → Bool
  | Val.str s => s.length == 10
  | _ => false

/-- A filled task form with a due date. -/
def filledForm : FormInput :=
  { title := some "Write spec", description := some "x", priority := some "high",
    label := some "work", dueDate := some "2024-05-01" }

/-- A task form whose title was left empty. -/
def untitledForm : FormInput :=
  { title := some "", description := some "x", priority := some "high",
    label := some "work", dueDate := some "" }

/-! ## The search filter from the input box to the predicate -/

/-- The `input` listener of the search box (lines 285-288): the text of the
box is stored in the filter set lower-cased. -/
def onSearchInput [Engine] (filters : FilterSet) (value : String) : FilterSet :=
  { filters with search := toLowerCase value }

/-- `UIManager.resetFilters` (lines 346-354), as far as the filter set goes. -/
def resetFilters : FilterSet :=
  { search := "", label := "all", priority := "all" }

/-- The search predicate in the words of the specification, for a search text
`s` of any letter case: `s` is empty, or lower-cased it occurs in the
lower-cased title or in the lower-cased description. -/
def searchSpec [Engine] (s : String) (t : Task) : Bool :=
  s == "" ||
    includes (toLowerCase (textOf t.title)) (toLowerCase s) ||
    includes (toLowerCase (textOf t.description)) (toLowerCase s)

/-- The search expression of lines 315-317 can be evaluated on the task: the
search is empty, or the title is a string and so is the description unless
the title holds the search. -/
def searchEvaluable [Engine] (search : String) (t : Task) : Bool :=
  search == "" ||
    (isStr t.title &&
      (includes (toLowerCase (textOf t.title)) search || isStr t.description))

/-- A stored task without title. -/
def untitledTask : Task :=
  { id := some (Val.num 4), createdAt := some (Val.str "d"), status := some (Val.str "todo"),
    description := some (Val.str "x"), priority := some (Val.str "high"),
    label := some (Val.str "work") }

/-! ## JSON text: what `save` writes and `load` reads

`JSON.stringify` and `JSON.parse` on the values of the model: a collection
object whose buckets are arrays of task objects with `null`, integer and
string properties. The text has no white space, as `JSON.stringify` writes
it; integers are in decimal, as `JSON.stringify` writes them below 10^21. A
text that `JSON.parse` rejects, or that holds something else than such a
collection, is unreadable to the model. -/

/-- The backslash. -/
def backslash : Char := Char.ofNat 92

/-- The comma. -/
def comma : Char := Char.ofNat 44

/-- The colon. -/
def colon : Char := Char.ofNat 58

/-- The minus sign. -/
def minus : Char := Char.ofNat 45

/-- The slash. -/
def slash : Char := Char.ofNat 47

/-- The opening bracket of an array. -/
def lbracket : Char := Char.ofNat 91

/-- The closing bracket of an array. -/
def rbracket : Char := Char.ofNat 93

/-- The opening brace of an object. -/
def lbrace : Char := Char.ofNat 123

/-- The closing brace of an object. -/
def rbrace : Char := Char.ofNat 125

/-- The decimal digit of a number below ten. -/
def digitChar (d : Nat) : Char := Char.ofNat (48 + d)

/-- The lower-case hexadecimal digit of a number below sixteen. -/
def hexChar (d : Nat) : Char :=
  if d < 10 then Char.ofNat (48 + d) else Char.ofNat (87 + d)

/-- The decimal digits of `n`, most significant first. -/
def natDigits : Nat → Nat → List Char
  | 0, _ => []
  | fuel + 1, n =>
    if n < 10 then [digitChar n] else natDigits fuel (n / 10) ++ [digitChar (n % 10)]

/-- A natural number in decimal. -/
def renderNat (n : Nat) : List Char := natDigits (n + 1) n

/-- An integer in decimal. -/
def renderInt (n : Int) : List Char :=
  if n < 0 then minus :: renderNat n.natAbs else renderNat n.natAbs

/-- One character inside a JSON string: the quote, the backslash and the
control characters are escaped. -/
def escapeChar (c : Char) : List Char :=
  if c = quote then [backslash, quote]
  else if c = backslash then [backslash, backslash]
  else if c = Char.ofNat 8 then [backslash, 'b']
  else if c = Char.ofNat 12 then [backslash, 'f']
  else if c = Char.ofNat 10 then [backslash, 'n']
  else if c = Char.ofNat 13 then [backslash, 'r']
  else if c = Char.ofNat 9 then [backslash, 't']
  else if c.toNat < 32 then
    [backslash, 'u', '0', '0', hexChar (c.toNat / 16), hexChar (c.toNat % 16)]
  else [c]

/-- A JSON string. -/
def renderString (s : String) : List Char :=
  quote :: s.data.flatMap escapeChar ++ [quote]

/-- A property value. -/
def renderVal : Val → List Char
  | Val.null => ['n', 'u', 'l', 'l']
  | Val.num n => renderInt n
  | Val.str s => renderString s

/-- The items of an array or object, separated by commas. -/
def renderItems {α : Type} (render : α → List Char) : List α → List Char
  | [] => []
  | [x] => render x
  | x :: y :: rest => render x ++ comma :: renderItems render (y :: rest)

/-- An array or object between its brackets. -/
def renderList {α : Type} (render : α → List Char) (opening closing : Char)
    (xs : List α) : List Char :=
  opening :: renderItems render xs ++ [closing]

/-- The properties that a task object has, in the order in which `addTask`
makes them. -/
def taskPairs (t : Task) : List (String × Val) :=
  (t.id.toList.map (fun v => ("id", v))) ++
  (t.createdAt.toList.map (fun v => ("createdAt", v))) ++
  (t.status.toList.map (fun v => ("status", v))) ++
  (t.title.toList.map (fun v => ("title", v))) ++
  (t.description.toList.map (fun v => ("description", v))) ++
  (t.priority.toList.map (fun v => ("priority", v))) ++
  (t.label.toList.map (fun v => ("label", v))) ++
  (t.dueDate.toList.map (fun v => ("dueDate", v)))

/-- A property: the key, a colon, the value. -/
def renderPair (p : String × Val) : List Char :=
  renderString p.1 ++ colon :: renderVal p.2

/-- A task object. -/
def renderTask (t : Task) : List Char :=
  renderList renderPair lbrace rbrace (taskPairs t)

/-- A bucket: the array of its tasks. -/
def renderBucket (ts : List Task) : List Char :=
  renderList renderTask lbracket rbracket ts

/-- A bucket under its key. -/
def renderEntry (e : String × List Task) : List Char :=
  renderString e.1 ++ colon :: renderBucket e.2

/-- `JSON.stringify(data)` for a collection. -/
def stringify (data : Collection) : String :=
  ⟨renderList renderEntry lbrace rbrace data⟩

/-- The value of a decimal digit. -/
def digitValue (c : Char) : Option Nat :=
  if 48 ≤ c.toNat ∧ c.toNat ≤ 57 then some (c.toNat - 48) else none

/-- The value of a hexadecimal digit. -/
def hexValue (c : Char) : Option Nat :=
  if 48 ≤ c.toNat ∧ c.toNat ≤ 57 then some (c.toNat - 48)
  else if 97 ≤ c.toNat ∧ c.toNat ≤ 102 then some (c.toNat - 87)
  else if 65 ≤ c.toNat ∧ c.toNat ≤ 70 then some (c.toNat - 55)
  else none

/-- Reads digits as long as there are some. -/
def parseDigits : List Char → Nat → Nat × List Char
  | [], acc => (acc, [])
  | c :: rest, acc =>
    match digitValue c with
    | some d => parseDigits rest (acc * 10 + d)
    | none => (acc, c :: rest)

/-- Reads a natural number: a zero alone, or digits that start with no zero. -/
def parseNat : List Char → Option (Nat × List Char)
  | [] => none
  | c :: rest =>
    match digitValue c with
    | none => none
    | some d =>
      if d = 0 then
        match rest with
        | [] => some (0, [])
        | c2 :: rest2 => if (digitValue c2).isSome then none else some (0, c2 :: rest2)
      else some (parseDigits rest d)

/-- The character that a one-letter escape stands for. -/
def unescape (e : Char) : Option Char :=
  if e = quote then some quote
  else if e = backslash then some backslash
  else if e = slash then some slash
  else if e = 'b' then some (Char.ofNat 8)
  else if e = 'f' then some (Char.ofNat 12)
  else if e = 'n' then some (Char.ofNat 10)
  else if e = 'r' then some (Char.ofNat 13)
  else if e = 't' then some (Char.ofNat 9)
  else none

/-- Reads the characters of a JSON string up to the closing quote. -/
def parseChars : List Char → Option (List Char × List Char)
  | [] => none
  | c :: rest =>
    if c = quote then some ([], rest)
    else if c = backslash then
      match rest with
      | [] => none
      | e :: rest1 =>
        if e = 'u' then
          match rest1 with
          | h1 :: h2 :: h3 :: h4 :: rest2 =>
            match hexValue h1, hexValue h2, hexValue h3, hexValue h4 with
            | some a, some b, some c3, some d =>
              (parseChars rest2).map
                (fun r => (Char.ofNat (a * 4096 + b * 256 + c3 * 16 + d) :: r.1, r.2))
            | _, _, _, _ => none
          | _ => none
        else
          match unescape e with
          | some x => (parseChars rest1).map (fun r => (x :: r.1, r.2))
          | none => none
    else if c.toNat < 32 then none
    else (parseChars rest).map (fun r => (c :: r.1, r.2))

/-- Reads a JSON string. -/
def parseString : List Char → Option (String × List Char)
  | [] => none
  | c :: rest => if c = quote then (parseChars rest).map (fun r => (⟨r.1⟩, r.2)) else none

/-- Reads a property value: a string, an integer or `null`. -/
def parseVal : List Char → Option (Val × List Char)
  | [] => none
  | c :: rest =>
    if c = quote then (parseChars rest).map (fun r => (Val.str ⟨r.1⟩, r.2))
    else if c = minus then (parseNat rest).map (fun r => (Val.num (-(r.1 : Int)), r.2))
    else if c = 'n' then
      match rest with
      | 'u' :: 'l' :: 'l' :: rest1 => some (Val.null, rest1)
      | _ => none
    else (parseNat (c :: rest)).map (fun r => (Val.num (r.1 : Int), r.2))

/-- Reads items separated by commas up to the closing bracket. -/
def parseItems {α : Type} (item : List Char → Option (α × List Char)) (closing : Char) :
    Nat → List Char → Option (List α × List Char)
  | 0, _ => none
  | fuel + 1, input =>
    match item input with
    | none => none
    | some (_, []) => none
    | some (x, c :: rest) =>
      if c = comma then (parseItems item closing fuel rest).map (fun r => (x :: r.1, r.2))
      else if c = closing then some ([x], rest)
      else none

/-- Reads an array or object between its brackets. -/
def parseList {α : Type} (item : List Char → Option (α × List Char))
    (opening closing : Char) : List Char → Option (List α × List Char)
  | [] => none
  | c :: rest =>
    if c = opening then
      match rest with
      | [] => none
      | d :: rest1 =>
        if d = closing then some ([], rest1) else parseItems item closing rest.length rest
    else none

/-- Reads a property of a task object. -/
def parsePair (input : List Char) : Option ((String × Val) × List Char) :=
  match parseString input with
  | some (key, c :: rest) =>
    if c = colon then (parseVal rest).map (fun r => ((key, r.1), r.2)) else none
  | _ => none

/-- Sets a property of a task object; a key outside the data model has no
place in the record. -/
def setField (t : Task) (p : String × Val) : Option Task :=
  if p.1 = "id" then some { t with id := some p.2 }
  else if p.1 = "createdAt" then some { t with createdAt := some p.2 }
  else if p.1 = "status" then some { t with status := some p.2 }
  else if p.1 = "title" then some { t with title := some p.2 }
  else if p.1 = "description" then some { t with description := some p.2 }
  else if p.1 = "priority" then some { t with priority := some p.2 }
  else if p.1 = "label" then some { t with label := some p.2 }
  else if p.1 = "dueDate" then some { t with dueDate := some p.2 }
  else none

/-- The task object with the given properties; a later property of the same
key replaces the earlier one. -/
def taskOfPairs : List (String × Val) → Task → Option Task
  | [], t => some t
  | p :: rest, t =>
    match setField t p with
    | some t1 => taskOfPairs rest t1
    | none => none

/-- Reads a task object. -/
def parseTask (input : List Char) : Option (Task × List Char) :=
  match parseList parsePair lbrace rbrace input with
  | some (pairs, rest) => (taskOfPairs pairs {}).map (fun t => (t, rest))
  | none => none

/-- Reads a bucket under its key. -/
def parseEntry (input : List Char) : Option ((String × List Task) × List Char) :=
  match parseString input with
  | some (key, c :: rest) =>
    if c = colon then
      (parseList parseTask lbracket rbracket rest).map (fun r => ((key, r.1), r.2))
    else none
  | _ => none

/-- Puts a bucket into the collection object: a key that the object has
already keeps its place and takes the new bucket. -/
def insertBucket (tasks : Collection) (e : String × List Task) : Collection :=
  if (getBucket tasks e.1).isSome then setBucket tasks e.1 e.2 else tasks ++ [e]

/-- `JSON.parse(data)` for the text of a collection; `none` when the text is
not one. -/
def parse (data : String) : Option Collection :=
  match parseList parseEntry lbrace rbrace data.data with
  | some (entries, []) => some (entries.foldl insertBucket [])
  | _ => none

/-! ## LocalStorageManager -/

/-- The storage medium under the key of the board: the text it holds, if any,
and whether it accepts a write (`setItem` throws when the quota is used up). -/
structure Storage where
  item : Option String
  accepts : Bool
  deriving DecidableEq, Repr

/-- `LocalStorageManager.load` (lines 9-17): `null` when there is no text,
when it is empty, or when it cannot be parsed. -/
def load (storage : Storage) : Option Collection :=
  match storage.item with
  | none => none
  | some data => if data = "" then none else parse data

/-- `LocalStorageManager.save` (lines 20-29): the storage after the call and
the boolean returned. -/
def save (storage : Storage) (data : Collection) : Storage × Bool :=
  if storage.accepts then ({ storage with item := some (stringify data) }, true)
  else (storage, false)

/-! ## KanbanBoardApp: the handlers of submit, delete and move -/

/-- What the page is made to show by a call of the controller: the cards of a
collection (`renderTasks` went through), the text of `showErrorMessage`, or
the closing of the task form (`hideModal`). -/
inductive UiEvent where
  | rendered (tasks : Collection)
  | message (text : String)
  | modalHidden
  deriving DecidableEq, Repr

/-- The card of the task can be drawn (`renderTask`, lines 407-437):
`escapeHtml` is called on title, description and label and `toLowerCase` on
priority, which throw on anything but a string. -/
def renderable (t : Task) : Bool :=
  isStr t.title && isStr t.priority && isStr t.description && isStr t.label

/-- `UIManager.renderTasks` (lines 392-405): the three buckets are drawn, and
a throw on the way is caught and shown as an error message. -/
def renderTasks (tasks : Collection) : List UiEvent :=
  match getBucket tasks "todo", getBucket tasks "inprogress", getBucket tasks "done" with
  | some todo, some inprogress, some done =>
    if (todo ++ inprogress ++ done).all renderable then [UiEvent.rendered tasks]
    else [UiEvent.message "Error rendering tasks"]
  | _, _, _ => [UiEvent.message "Error rendering tasks"]

/-- The state of `KanbanBoardApp` with its collaborators: the collection, the
id of the task being edited, the filter state of the page, the storage medium
and what the page was made to show so far. -/
structure App where
  tasks : Collection
  editingTaskId : Option Val
  filters : FilterSet
  storage : Storage
  ui : List UiEvent
  deriving DecidableEq, Repr

/-- `KanbanBoardApp.handleTaskSubmit` (lines 808-830). The value that `save`
returns is not looked at. -/
def App.handleTaskSubmit (app : App) (formData : Option Fields) (clock : Clock) : App :=
  match formData with
  | none => app
  | some fields =>
    let updated : Collection × Option Task :=
      match app.editingTaskId with
      | some taskId =>
        if truthy (some taskId) then updateTask app.tasks taskId fields.toTask
        else addTask app.tasks fields.toTask "todo" clock
      | none => addTask app.tasks fields.toTask "todo" clock
    let editing := if truthy app.editingTaskId then none else app.editingTaskId
    match updated.2 with
    | some _ =>
      { tasks := updated.1
        editingTaskId := editing
        filters := app.filters
        storage := (save app.storage updated.1).1
        ui := app.ui ++ renderTasks updated.1 ++ [UiEvent.modalHidden] }
    | none => { app with tasks := updated.1, editingTaskId := editing }

/-- `KanbanBoardApp.handleTaskDelete` (lines 842-849); `confirmed` is the
answer to the `confirm` dialog. The value that `save` returns is not looked
at. -/
def App.handleTaskDelete (app : App) (taskId : Val) (confirmed : Bool) : App :=
  if confirmed then
    { app with
      tasks := (removeTask app.tasks taskId).1
      storage := (save app.storage (removeTask app.tasks taskId).1).1
      ui := app.ui ++ renderTasks (removeTask app.tasks taskId).1 }
  else app

/-- A call that `handleTaskMove` makes to a collaborator, carried out:
`save` on the storage medium, its result dropped, or `renderTasks`. -/
def App.perform (app : App) : Effect → App
  | Effect.save data => { app with storage := (save app.storage data).1 }
  | Effect.render tasks => { app with ui := app.ui ++ renderTasks tasks }

/-- `KanbanBoardApp.handleTaskMove` (lines 858-892) with its collaborators:
the collection and the calls of `handleTaskMove`, the calls carried out in
their order. -/
def App.handleTaskMove [Engine] (app : App) (taskId : Val) (newStatus : String) (clock : Clock) : App :=
  (Kanban.handleTaskMove app.tasks app.filters taskId newStatus clock).2.foldl App.perform
    { app with
      tasks := (Kanban.handleTaskMove app.tasks app.filters taskId newStatus clock).1 }

/-- The controller on the empty board with a storage medium that is full. -/
def fullStorageApp : App :=
  { tasks := emptyBoard, editingTaskId := none, filters := ⟨"", "all", "all"⟩,
    storage := ⟨none, false⟩, ui := [] }

/-- The controller on the three-task board with a storage medium that is
full. -/
def fullStorageBoardApp : App :=
  { tasks := threeTaskBoard, editingTaskId := none, filters := ⟨"", "all", "all"⟩,
    storage := ⟨none, false⟩, ui := [] }

/-- The event is a call of `showErrorMessage`. -/
def UiEvent.isMessage : UiEvent → Bool
  | UiEvent.message _ => true
  | _ => false

/-- What the controller holds in memory and what the page was made to show:
everything of the state but the storage medium. -/
def App.shows (app : App) : Collection × Option Val × FilterSet × List UiEvent :=
  (app.tasks, app.editingTaskId, app.filters, app.ui)

/-- The controller on the three-task board, the task with id 2 being edited,
with a storage medium that is full. -/
def fullStorageEditingApp : App :=
  { tasks := threeTaskBoard, editingTaskId := some (Val.num 2),
    filters := ⟨"", "all", "all"⟩, storage := ⟨none, false⟩, ui := [] }

/-! ## Lemmas on the collection -/

theorem allTasks_cons (k : String) (ts : List Task) (rest : Collection) :
    allTasks ((k, ts) :: rest) = ts ++ allTasks rest := by
  simp [allTasks]

theorem foldl_count (c : Collection) (n : Nat) :
    c.foldl (fun acc b => acc + b.2.length) n = n + (allTasks c).length := by
  induction c generalizing n with
  | nil => simp [allTasks]
  | cons b rest ih =>
    obtain ⟨k, ts⟩ := b
    simp [List.foldl_cons, ih, allTasks_cons]
    omega

theorem getTasksCount_eq (c : Collection) : getTasksCount c = (allTasks c).length := by
  simp [getTasksCount, foldl_count]

theorem keys_setBucket (c : Collection) (key : String) (b : List Task) :
    keys (setBucket c key b) = keys c := by
  induction c with
  | nil => rfl
  | cons e rest ih =>
    obtain ⟨k, ts⟩ := e
    by_cases h : k = key
    · simp [setBucket, h, keys]
    · simp only [setBucket, h, if_false]
      simp only [keys, List.map_cons] at ih ⊢
      rw [ih]

theorem getBucket_setBucket_same (c : Collection) (key : String) (b ts : List Task)
    (h : getBucket c key = some ts) : getBucket (setBucket c key b) key = some b := by
  induction c with
  | nil => simp [getBucket] at h
  | cons e rest ih =>
    obtain ⟨k, us⟩ := e
    by_cases hk : k = key
    · simp [setBucket, getBucket, hk]
    · simp only [getBucket, hk, if_false] at h
      simp [setBucket, getBucket, hk, ih h]

theorem getBucket_setBucket_other (c : Collection) (key other : String) (b : List Task)
    (h : other ≠ key) : getBucket (setBucket c key b) other = getBucket c other := by
  induction c with
  | nil => rfl
  | cons e rest ih =>
    obtain ⟨k, us⟩ := e
    by_cases hk : k = key
    · subst hk
      have : ¬ k = other := fun e => h e.symm
      simp [setBucket, getBucket, this]
    · by_cases ho : k = other
      · subst ho
        simp [setBucket, getBucket, hk]
      · simp [setBucket, getBucket, hk, ho, ih]

theorem allTasks_length_setBucket (c : Collection) (key : String) (b ts : List Task)
    (h : getBucket c key = some ts) :
    (allTasks (setBucket c key b)).length + ts.length = (allTasks c).length + b.length := by
  induction c with
  | nil => simp [getBucket] at h
  | cons e rest ih =>
    obtain ⟨k, us⟩ := e
    by_cases hk : k = key
    · simp only [getBucket, hk, if_true, Option.some.injEq] at h
      subst h
      simp [setBucket, hk, allTasks_cons]
      omega
    · simp only [getBucket, hk, if_false] at h
      have := ih h
      simp [setBucket, hk, allTasks_cons]
      omega

theorem getBucket_append_new (c : Collection) (key : String) (h : getBucket c key = none) :
    getBucket (c ++ [(key, [])]) key = some [] := by
  induction c with
  | nil => simp [getBucket]
  | cons e rest ih =>
    obtain ⟨k, us⟩ := e
    by_cases hk : k = key
    · simp [getBucket, hk] at h
    · simp only [getBucket, hk, if_false] at h
      simp [getBucket, hk, ih h]

theorem allTasks_append_new (c : Collection) (key : String) :
    allTasks (c ++ [(key, [])]) = allTasks c := by
  simp [allTasks]
/-! ## C3: create and required fields -/

theorem addTask_of_bucket (tasks : Collection) (task : Task) (status : String) (clock : Clock)
    (old : List Task) (h : getBucket tasks status = some old) :
    addTask tasks task status clock =
      (setBucket tasks status (old ++ [newTaskOf task status clock]),
        some (newTaskOf task status clock)) := by
  simp [addTask, h]

theorem addTask_of_fresh (tasks : Collection) (task : Task) (status : String) (clock : Clock)
    (h : getBucket tasks status = none) (hi : inheritedKeys.contains status = false) :
    addTask tasks task status clock =
      (setBucket (tasks ++ [(status, [])]) status [newTaskOf task status clock],
        some (newTaskOf task status clock)) := by
  have hi1 : status ∉ inheritedKeys := by simpa using hi
  simp [addTask, h, hi1, getBucket_append_new tasks status h]

theorem addTask_of_inherited (tasks : Collection) (task : Task) (status : String)
    (clock : Clock) (h : getBucket tasks status = none)
    (hi : inheritedKeys.contains status = true) :
    addTask tasks task status clock = (tasks, none) := by
  have hi1 : status ∈ inheritedKeys := by simpa using hi
  simp [addTask, h, hi1]

theorem addTask_cases (tasks : Collection) (task : Task) (status : String) (clock : Clock) :
    addTask tasks task status clock = (tasks, none) ∨
    (∃ old, getBucket tasks status = some old ∧
      addTask tasks task status clock =
        (setBucket tasks status (old ++ [newTaskOf task status clock]),
          some (newTaskOf task status clock))) ∨
    (getBucket tasks status = none ∧
      addTask tasks task status clock =
        (setBucket (tasks ++ [(status, [])]) status [newTaskOf task status clock],
          some (newTaskOf task status clock))) := by
  cases h : getBucket tasks status with
  | some old => exact Or.inr (Or.inl ⟨old, rfl, addTask_of_bucket _ _ _ _ old h⟩)
  | none =>
    cases hi : inheritedKeys.contains status with
    | true => exact Or.inl (addTask_of_inherited _ _ _ _ h hi)
    | false => exact Or.inr (Or.inr ⟨rfl, addTask_of_fresh _ _ _ _ h hi⟩)

theorem storable_cases (tasks : Collection) (status : String)
    (h : storable tasks status = true) :
    (∃ old, getBucket tasks status = some old) ∨
    (getBucket tasks status = none ∧ inheritedKeys.contains status = false) := by
  unfold storable at h
  cases hb : getBucket tasks status with
  | some old => exact Or.inl ⟨old, rfl⟩
  | none =>
    rw [hb] at h
    simp only [Option.isSome_none, Bool.false_or, Bool.not_eq_true', ] at h
    exact Or.inr ⟨rfl, h⟩

theorem addTask_snd (tasks : Collection) (task : Task) (status : String) (clock : Clock)
    (h : storable tasks status = true) :
    (addTask tasks task status clock).2 = some (newTaskOf task status clock) := by
  rcases storable_cases tasks status h with ⟨old, hb⟩ | ⟨hb, hi⟩
  · rw [addTask_of_bucket _ _ _ _ old hb]
  · rw [addTask_of_fresh _ _ _ _ hb hi]

theorem addTask_fst_getBucket (tasks : Collection) (task : Task) (status : String)
    (clock : Clock) (h : storable tasks status = true) :
    getBucket (addTask tasks task status clock).1 status =
      some ((getBucket tasks status).getD [] ++ [newTaskOf task status clock]) := by
  rcases storable_cases tasks status h with ⟨old, hb⟩ | ⟨hb, hi⟩
  · rw [addTask_of_bucket _ _ _ _ old hb, hb]
    exact getBucket_setBucket_same _ _ _ _ hb
  · rw [addTask_of_fresh _ _ _ _ hb hi, hb]
    exact getBucket_setBucket_same _ _ _ _ (getBucket_append_new tasks status hb)

theorem addTask_count (tasks : Collection) (task : Task) (status : String) (clock : Clock)
    (h : storable tasks status = true) :
    getTasksCount (addTask tasks task status clock).1 = getTasksCount tasks + 1 := by
  rw [getTasksCount_eq, getTasksCount_eq]
  rcases storable_cases tasks status h with ⟨old, hb⟩ | ⟨hb, hi⟩
  · rw [addTask_of_bucket _ _ _ _ old hb]
    have := allTasks_length_setBucket tasks status (old ++ [newTaskOf task status clock]) old hb
    simp only [List.length_append, List.length_singleton] at this ⊢
    omega
  · rw [addTask_of_fresh _ _ _ _ hb hi]
    have := allTasks_length_setBucket (tasks ++ [(status, [])]) status
      [newTaskOf task status clock] [] (getBucket_append_new tasks status hb)
    rw [allTasks_append_new] at this
    simpa using this

theorem storable_of_bucket (tasks : Collection) (status : String) (old : List Task)
    (h : getBucket tasks status = some old) : storable tasks status = true := by
  simp [storable, h]

/-- C3 (as stated, refuted): on the empty board a field set whose title is the
empty string is stored all the same: `addTask` returns the task and the count
goes from 0 to 1. -/
theorem addTask_accepts_empty_title :
    missingRequired emptyTitleFields.toTask = true ∧
    (addTask emptyBoard emptyTitleFields.toTask "todo" ⟨1, "t"⟩).2 ≠ none ∧
    getTasksCount (addTask emptyBoard emptyTitleFields.toTask "todo" ⟨1, "t"⟩).1 = 1 ∧
    getTasksCount emptyBoard = 0 := by
  decide

/-- C3 (amended): `addTask` validates nothing. For every collection, every
field set, with or without its required fields, and every status that names a
bucket of the collection or is not the name of an inherited property, it
returns the stored task, which is the last task of the bucket `status` and
carries the four required properties exactly as given, and `getTasksCount`
grows by exactly one. Only for a status that names an inherited property and
no bucket it returns `null` and leaves the collection as it was, again
whatever the fields. -/
theorem addTask_always_stores (tasks : Collection) (task : Task) (status : String)
    (clock : Clock) :
    (storable tasks status = true →
      ∃ newTask, (addTask tasks task status clock).2 = some newTask ∧
        getBucket (addTask tasks task status clock).1 status =
          some ((getBucket tasks status).getD [] ++ [newTask]) ∧
        newTask.title = task.title ∧ newTask.description = task.description ∧
        newTask.priority = task.priority ∧ newTask.label = task.label ∧
        getTasksCount (addTask tasks task status clock).1 = getTasksCount tasks + 1) ∧
    (storable tasks status = false → addTask tasks task status clock = (tasks, none)) := by
  refine ⟨fun h => ⟨newTaskOf task status clock, addTask_snd _ _ _ _ h,
    addTask_fst_getBucket _ _ _ _ h, ?_, ?_, ?_, ?_, addTask_count _ _ _ _ h⟩, fun h => ?_⟩
  · simp [newTaskOf, spread]
  · simp [newTaskOf, spread]
  · simp [newTaskOf, spread]
  · simp [newTaskOf, spread]
  · unfold storable at h
    cases hb : getBucket tasks status with
    | some old => simp [hb] at h
    | none =>
      rw [hb] at h
      exact addTask_of_inherited _ _ _ _ hb (by simpa using h)

/-- C3 (amended), at the field set with the empty title on the empty board,
status "todo", and at the status "constructor". -/
theorem addTask_always_stores_witness :
    storable emptyBoard "todo" = true ∧
    storable emptyBoard "constructor" = false ∧
    (∃ newTask, (addTask emptyBoard emptyTitleFields.toTask "todo" ⟨1, "t"⟩).2 = some newTask ∧
      getBucket (addTask emptyBoard emptyTitleFields.toTask "todo" ⟨1, "t"⟩).1 "todo" =
        some ((getBucket emptyBoard "todo").getD [] ++ [newTask]) ∧
      newTask.title = emptyTitleFields.toTask.title ∧
      newTask.description = emptyTitleFields.toTask.description ∧
      newTask.priority = emptyTitleFields.toTask.priority ∧
      newTask.label = emptyTitleFields.toTask.label ∧
      getTasksCount (addTask emptyBoard emptyTitleFields.toTask "todo" ⟨1, "t"⟩).1 =
        getTasksCount emptyBoard + 1) ∧
    addTask emptyBoard specFields.toTask "constructor" ⟨1, "t"⟩ = (emptyBoard, none) :=
  ⟨by decide, by decide,
    (addTask_always_stores emptyBoard emptyTitleFields.toTask "todo" ⟨1, "t"⟩).1 (by decide),
    (addTask_always_stores emptyBoard specFields.toTask "constructor" ⟨1, "t"⟩).2 (by decide)⟩

/-! ## C4: remove -/

theorem getBucket_map (c : Collection) (f : List Task → List Task) (key : String) :
    getBucket (c.map (fun b => (b.1, f b.2))) key = (getBucket c key).map f := by
  induction c with
  | nil => rfl
  | cons e rest ih =>
    obtain ⟨k, ts⟩ := e
    by_cases hk : k = key
    · simp [getBucket, hk]
    · simp [getBucket, hk, ih]

theorem keys_map (c : Collection) (f : List Task → List Task) :
    keys (c.map (fun b => (b.1, f b.2))) = keys c := by
  simp [keys, List.map_map, Function.comp_def]

theorem allTasks_map_filter (c : Collection) (p : Task → Bool) :
    allTasks (c.map (fun b => (b.1, b.2.filter p))) = (allTasks c).filter p := by
  induction c with
  | nil => rfl
  | cons e rest ih =>
    obtain ⟨k, ts⟩ := e
    simp only [List.map_cons, allTasks_cons, List.filter_append, ih]

theorem allTasks_removeTask (tasks : Collection) (taskId : Val) :
    allTasks (removeTask tasks taskId).1 =
      (allTasks tasks).filter (fun task => task.id != some taskId) :=
  allTasks_map_filter tasks _

/-- C4 (as stated, refuted): on the empty board no task has id 1, and
`removeTask` returns `true` all the same. -/
theorem removeTask_true_on_absent_id :
    (∀ t ∈ allTasks emptyBoard, t.id ≠ some (Val.num 1)) ∧
    (removeTask emptyBoard (Val.num 1)).2 = true := by
  decide

/-- C4 (amended): `removeTask` returns `true` for every collection and every
id, whether or not a task with that id was stored. After the call the bucket
keys are the same, every bucket is its former content without the tasks of
that id (the others in their order), and no stored task has that id. -/
theorem removeTask_spec (tasks : Collection) (taskId : Val) :
    (removeTask tasks taskId).2 = true ∧
    keys (removeTask tasks taskId).1 = keys tasks ∧
    (∀ key, getBucket (removeTask tasks taskId).1 key =
      (getBucket tasks key).map (fun ts => ts.filter (fun task => task.id != some taskId))) ∧
    (∀ t ∈ allTasks (removeTask tasks taskId).1, t.id ≠ some taskId) := by
  refine ⟨rfl, keys_map tasks _, fun key => getBucket_map tasks _ key, ?_⟩
  intro t ht
  rw [allTasks_removeTask] at ht
  simpa using (List.mem_filter.mp ht).2

/-! ## C6: update of an id that is not stored -/

theorem find?_none_of_no_id (ts : List Task) (taskId : Val)
    (h : ∀ t ∈ ts, t.id ≠ some taskId) :
    ts.find? (fun task => task.id == some taskId) = none := by
  rw [List.find?_eq_none]
  intro t ht
  simpa using h t ht

/-- C6: when no stored task has the id, `updateTask` returns `null` and the
collection is the one it was given. -/
theorem updateTask_absent_id (tasks : Collection) (taskId : Val) (updates : Task)
    (h : ∀ t ∈ allTasks tasks, t.id ≠ some taskId) :
    updateTask tasks taskId updates = (tasks, none) := by
  induction tasks with
  | nil => rfl
  | cons e rest ih =>
    obtain ⟨k, ts⟩ := e
    rw [allTasks_cons] at h
    have h1 : ts.find? (fun task => task.id == some taskId) = none :=
      find?_none_of_no_id ts taskId (fun t ht => h t (List.mem_append_left _ ht))
    have h2 := ih (fun t ht => h t (List.mem_append_right _ ht))
    simp [updateTask, h1, h2]

/-- C6 at a board that holds one task with id 5: updating id 7 with a title
returns `null` and changes nothing. -/
theorem updateTask_absent_id_witness :
    (∀ t ∈ allTasks (addTask emptyBoard specFields.toTask "todo" ⟨5, "t"⟩).1, t.id ≠ some (Val.num 7)) ∧
    updateTask (addTask emptyBoard specFields.toTask "todo" ⟨5, "t"⟩).1 (Val.num 7)
        { title := some (Val.str "x") } =
      ((addTask emptyBoard specFields.toTask "todo" ⟨5, "t"⟩).1, none) :=
  ⟨by decide, updateTask_absent_id _ _ _ (by decide)⟩

/-! ## C5: what update changes -/

theorem assignFirst_split (ts : List Task) (taskId : Val) (updates : Task) (t : Task)
    (h : ts.find? (fun task => task.id == some taskId) = some t) :
    ∃ ts1 ts2, ts = ts1 ++ t :: ts2 ∧ t.id = some taskId ∧
      (∀ u ∈ ts1, u.id ≠ some taskId) ∧
      assignFirst ts taskId updates = ts1 ++ spread t updates :: ts2 := by
  induction ts with
  | nil => simp at h
  | cons a rest ih =>
    by_cases ha : a.id = some taskId
    · have hat : a = t := by simpa [List.find?_cons, ha] using h
      subst hat
      exact ⟨[], rest, rfl, ha, by simp, by simp [assignFirst, ha]⟩
    · have hrest : rest.find? (fun task => task.id == some taskId) = some t := by
        simpa [List.find?_cons, ha] using h
      obtain ⟨ts1, ts2, h1, h2, h3, h4⟩ := ih hrest
      refine ⟨a :: ts1, ts2, by simp [h1], h2, ?_, by simp [assignFirst, ha, h4]⟩
      intro u hu
      rcases List.mem_cons.mp hu with rfl | hu
      · exact ha
      · exact h3 u hu

theorem updateTask_split (tasks : Collection) (taskId : Val) (updates : Task)
    (h : ∃ t ∈ allTasks tasks, t.id = some taskId) :
    ∃ pre k ts1 t ts2 post,
      tasks = pre ++ (k, ts1 ++ t :: ts2) :: post ∧ t.id = some taskId ∧
      (∀ u ∈ allTasks pre ++ ts1, u.id ≠ some taskId) ∧
      updateTask tasks taskId updates =
        (pre ++ (k, ts1 ++ spread t updates :: ts2) :: post, some (spread t updates)) := by
  induction tasks with
  | nil => simp [allTasks] at h
  | cons e rest ih =>
    obtain ⟨k, ts⟩ := e
    cases hf : ts.find? (fun task => task.id == some taskId) with
    | some t =>
      obtain ⟨ts1, ts2, h1, h2, h3, h4⟩ := assignFirst_split ts taskId updates t hf
      refine ⟨[], k, ts1, t, ts2, rest, by simp [h1], h2, ?_, ?_⟩
      · simpa [allTasks] using h3
      · simp [updateTask, hf, h4]
    | none =>
      rw [List.find?_eq_none] at hf
      have hrest : ∃ t ∈ allTasks rest, t.id = some taskId := by
        obtain ⟨t, ht, hid⟩ := h
        rw [allTasks_cons] at ht
        rcases List.mem_append.mp ht with ht | ht
        · exact absurd (by simpa using hid) (hf t ht)
        · exact ⟨t, ht, hid⟩
      obtain ⟨pre, k2, ts1, t, ts2, post, h1, h2, h3, h4⟩ := ih hrest
      refine ⟨(k, ts) :: pre, k2, ts1, t, ts2, post, by simp [h1], h2, ?_, ?_⟩
      · intro u hu
        rw [allTasks_cons, List.append_assoc] at hu
        rcases List.mem_append.mp hu with hu | hu
        · simpa using hf u hu
        · exact h3 u hu
      · have hf2 : ts.find? (fun task => task.id == some taskId) = none := by
          rw [List.find?_eq_none]; exact hf
        simp [updateTask, hf2, h4]

theorem spread_keeps (t updates : Task) :
    (updates.status = none → (spread t updates).status = t.status) ∧
    (updates.id = none → (spread t updates).id = t.id) ∧
    (updates.createdAt = none → (spread t updates).createdAt = t.createdAt) ∧
    (∀ v, updates.status = some v → (spread t updates).status = some v) ∧
    (∀ v, updates.id = some v → (spread t updates).id = some v) ∧
    (∀ v, updates.createdAt = some v → (spread t updates).createdAt = some v) := by
  refine ⟨?_, ?_, ?_, ?_, ?_, ?_⟩ <;> intro h <;> simp_all [spread]

/-- C5 (as stated, refuted): the task with id 5 sits in todo with status
"todo"; an update whose patch carries status "done" leaves it in the todo
bucket with its status property now "done". -/
theorem updateTask_overwrites_status :
    (getTaskById oneTaskBoard (Val.num 5)).map (fun t => t.status) =
      some (some (Val.str "todo")) ∧
    (getBucket (updateTask oneTaskBoard (Val.num 5) { status := some (Val.str "done") }).1
        "todo").map (fun ts => ts.map (fun t => t.status)) =
      some [some (Val.str "done")] := by
  decide

/-- C5 (amended): for every collection, every id of a stored task and every
patch, `updateTask` replaces the first stored task `t` with that id, in its
bucket and at its position, by `t` merged with the patch and changes nothing
else. Each of status, id and createdAt keeps its value when the patch does
not carry it and takes the patch's value when it does. -/
theorem updateTask_spec (tasks : Collection) (taskId : Val) (updates : Task)
    (h : ∃ t ∈ allTasks tasks, t.id = some taskId) :
    ∃ pre k ts1 t ts2 post,
      tasks = pre ++ (k, ts1 ++ t :: ts2) :: post ∧ t.id = some taskId ∧
      (∀ u ∈ allTasks pre ++ ts1, u.id ≠ some taskId) ∧
      updateTask tasks taskId updates =
        (pre ++ (k, ts1 ++ spread t updates :: ts2) :: post, some (spread t updates)) ∧
      (updates.status = none → (spread t updates).status = t.status) ∧
      (updates.id = none → (spread t updates).id = t.id) ∧
      (updates.createdAt = none → (spread t updates).createdAt = t.createdAt) ∧
      (∀ v, updates.status = some v → (spread t updates).status = some v) ∧
      (∀ v, updates.id = some v → (spread t updates).id = some v) ∧
      (∀ v, updates.createdAt = some v → (spread t updates).createdAt = some v) := by
  obtain ⟨pre, k, ts1, t, ts2, post, h1, h2, h3, h4⟩ := updateTask_split tasks taskId updates h
  exact ⟨pre, k, ts1, t, ts2, post, h1, h2, h3, h4, spread_keeps t updates⟩

/-- C5 (amended) at the one-task board: a patch with a new title and no
status, id or createdAt. -/
theorem updateTask_spec_witness :
    (∃ t ∈ allTasks oneTaskBoard, t.id = some (Val.num 5)) ∧
    ∃ pre k ts1 t ts2 post,
      oneTaskBoard = pre ++ (k, ts1 ++ t :: ts2) :: post ∧ t.id = some (Val.num 5) ∧
      (∀ u ∈ allTasks pre ++ ts1, u.id ≠ some (Val.num 5)) ∧
      updateTask oneTaskBoard (Val.num 5) { title := some (Val.str "y") } =
        (pre ++ (k, ts1 ++ spread t { title := some (Val.str "y") } :: ts2) :: post,
          some (spread t { title := some (Val.str "y") })) ∧
      (({ title := some (Val.str "y") } : Task).status = none →
        (spread t { title := some (Val.str "y") }).status = t.status) ∧
      (({ title := some (Val.str "y") } : Task).id = none →
        (spread t { title := some (Val.str "y") }).id = t.id) ∧
      (({ title := some (Val.str "y") } : Task).createdAt = none →
        (spread t { title := some (Val.str "y") }).createdAt = t.createdAt) ∧
      (∀ v, ({ title := some (Val.str "y") } : Task).status = some v →
        (spread t { title := some (Val.str "y") }).status = some v) ∧
      (∀ v, ({ title := some (Val.str "y") } : Task).id = some v →
        (spread t { title := some (Val.str "y") }).id = some v) ∧
      (∀ v, ({ title := some (Val.str "y") } : Task).createdAt = some v →
        (spread t { title := some (Val.str "y") }).createdAt = some v) :=
  ⟨by decide, updateTask_spec oneTaskBoard (Val.num 5) { title := some (Val.str "y") } (by decide)⟩

/-! ## C7: a move to the status the task has -/

theorem find?_some_id (ts : List Task) (taskId : Val) (t : Task)
    (h : ts.find? (fun task => task.id == some taskId) = some t) :
    t ∈ ts ∧ t.id = some taskId := by
  refine ⟨List.mem_of_find?_eq_some h, ?_⟩
  simpa using List.find?_some h

theorem getTaskById_some (tasks : Collection) (taskId : Val) (t : Task)
    (h : getTaskById tasks taskId = some t) : t ∈ allTasks tasks ∧ t.id = some taskId := by
  induction tasks with
  | nil => simp [getTaskById] at h
  | cons e rest ih =>
    obtain ⟨k, ts⟩ := e
    rw [allTasks_cons]
    cases hf : ts.find? (fun task => task.id == some taskId) with
    | some u =>
      have hu : u = t := by simpa [getTaskById, hf] using h
      subst hu
      exact ⟨List.mem_append_left _ (find?_some_id ts taskId u hf).1,
        (find?_some_id ts taskId u hf).2⟩
    | none =>
      have hr : getTaskById rest taskId = some t := by simpa [getTaskById, hf] using h
      exact ⟨List.mem_append_right _ (ih hr).1, (ih hr).2⟩

theorem handleTaskMove_noop [Engine] (tasks : Collection) (filters : FilterSet) (taskId : Val)
    (s : String) (clock : Clock)
    (hs : ∀ t ∈ allTasks tasks, t.id = some taskId → t.status = some (Val.str s)) :
    handleTaskMove tasks filters taskId s clock = (tasks, []) := by
  unfold handleTaskMove
  cases hg : getTaskById tasks taskId with
  | none => rfl
  | some t =>
    have ht := getTaskById_some tasks taskId t hg
    simp [hs t ht.1 ht.2]

/-- C7: when the stored task with the id has status `s` already, a move to
`s` returns the collection it was given and makes no call to storage or to
the renderer; so any number of such moves, at whatever clock readings, gives
the collection that one of them gives. -/
theorem handleTaskMove_same_status [Engine] (tasks : Collection) (filters : FilterSet) (taskId : Val)
    (s : String) (clock : Clock)
    (hs : ∀ t ∈ allTasks tasks, t.id = some taskId → t.status = some (Val.str s)) :
    handleTaskMove tasks filters taskId s clock = (tasks, []) ∧
    ∀ clocks : List Clock,
      clocks.foldl (fun c clk => (handleTaskMove c filters taskId s clk).1) tasks =
        (handleTaskMove tasks filters taskId s clock).1 := by
  refine ⟨handleTaskMove_noop tasks filters taskId s clock hs, ?_⟩
  intro clocks
  rw [handleTaskMove_noop tasks filters taskId s clock hs]
  induction clocks with
  | nil => rfl
  | cons c rest ih =>
    rw [List.foldl_cons, handleTaskMove_noop tasks filters taskId s c hs]
    exact ih

/-- C7 at the one-task board: the task with id 5 has status "todo" and is
dropped on the todo list. -/
theorem handleTaskMove_same_status_witness :
    (∀ t ∈ allTasks oneTaskBoard, t.id = some (Val.num 5) → t.status = some (Val.str "todo")) ∧
    (∃ t ∈ allTasks oneTaskBoard, t.id = some (Val.num 5)) ∧
    handleTaskMove oneTaskBoard ⟨"", "all", "all"⟩ (Val.num 5) "todo" ⟨9, "u"⟩ =
      (oneTaskBoard, []) ∧
    ∀ clocks : List Clock,
      clocks.foldl (fun c clk => (handleTaskMove c ⟨"", "all", "all"⟩ (Val.num 5) "todo" clk).1)
          oneTaskBoard =
        (handleTaskMove oneTaskBoard ⟨"", "all", "all"⟩ (Val.num 5) "todo" ⟨9, "u"⟩).1 :=
  ⟨by decide, by decide,
    handleTaskMove_same_status oneTaskBoard ⟨"", "all", "all"⟩ (Val.num 5) "todo" ⟨9, "u"⟩
      (by decide)⟩

/-! ## C10: the filtered view -/

theorem matchesTask_eq [Engine] (filters : FilterSet) (t : Task) :
    matchesTask filters t = if evaluable filters t then some (passes filters t) else none := by
  obtain ⟨id, createdAt, status, title, description, priority, label, dueDate⟩ := t
  have e1 : (filters.search = "") ↔ ((filters.search == "") = true) := by simp
  have e2 : (filters.priority = "all") ↔ ((filters.priority == "all") = true) := by simp
  simp only [matchesTask, matchesSearch, matchesPriority, matchesLabel, passes, passesSearch,
    passesLabel, passesPriority, evaluable, e1, e2]
  cases (filters.search == "") <;> cases (filters.priority == "all") <;>
    rcases title with _ | _ | _ | a <;> rcases description with _ | _ | _ | b <;>
    rcases priority with _ | _ | _ | p <;>
    simp [lowerOf, textOf, isStr] <;>
    cases includes (toLowerCase a) filters.search <;> simp

theorem evaluable_of_hasText [Engine] (filters : FilterSet) (t : Task) (h : hasText t = true) :
    evaluable filters t = true := by
  simp only [hasText, Bool.and_eq_true] at h
  simp [evaluable, h.1.1, h.1.2, h.2]

theorem evaluable_match_all [Engine] (filters : FilterSet) (t : Task) (hs : filters.search = "")
    (hp : filters.priority = "all") : evaluable filters t = true := by
  simp [evaluable, hs, hp]

theorem filterBucket_eq [Engine] (filters : FilterSet) (ts : List Task)
    (h : ∀ t ∈ ts, evaluable filters t = true) :
    filterBucket filters ts = some (ts.filter (passes filters)) := by
  induction ts with
  | nil => rfl
  | cons t rest ih =>
    have h1 := h t (List.mem_cons_self _ _)
    have h2 := ih (fun u hu => h u (List.mem_cons_of_mem _ hu))
    cases hpt : passes filters t <;>
      simp [filterBucket, matchesTask_eq, h1, h2, hpt, List.filter_cons]

theorem filterBucket_isSome [Engine] (filters : FilterSet) (ts : List Task)
    (h : (filterBucket filters ts).isSome = true) : ∀ t ∈ ts, evaluable filters t = true := by
  induction ts with
  | nil => intro t ht; simp at ht
  | cons a rest ih =>
    cases ha : evaluable filters a with
    | false => simp [filterBucket, matchesTask_eq, ha] at h
    | true =>
      cases hr : filterBucket filters rest with
      | none => simp [filterBucket, matchesTask_eq, ha, hr] at h
      | some kept =>
        intro t ht
        rcases List.mem_cons.mp ht with rfl | ht
        · exact ha
        · exact ih (by simp [hr]) t ht

theorem filterTasks_eq [Engine] (filters : FilterSet) (tasks : Collection)
    (h : ∀ t ∈ allTasks tasks, evaluable filters t = true) :
    filterTasks filters tasks =
      some (tasks.map (fun b => (b.1, b.2.filter (passes filters)))) := by
  induction tasks with
  | nil => rfl
  | cons e rest ih =>
    obtain ⟨k, ts⟩ := e
    rw [allTasks_cons] at h
    have h1 := filterBucket_eq filters ts (fun t ht => h t (List.mem_append_left _ ht))
    have h2 := ih (fun t ht => h t (List.mem_append_right _ ht))
    simp [filterTasks, h1, h2]

theorem filterTasks_isSome [Engine] (filters : FilterSet) (tasks : Collection)
    (h : (filterTasks filters tasks).isSome = true) :
    ∀ t ∈ allTasks tasks, evaluable filters t = true := by
  induction tasks with
  | nil => intro t ht; simp [allTasks] at ht
  | cons e rest ih =>
    obtain ⟨k, ts⟩ := e
    cases hb : filterBucket filters ts with
    | none => simp [filterTasks, hb] at h
    | some kept =>
      cases hr : filterTasks filters rest with
      | none => simp [filterTasks, hb, hr] at h
      | some done =>
        intro t ht
        rw [allTasks_cons] at ht
        rcases List.mem_append.mp ht with ht | ht
        · exact filterBucket_isSome filters ts (by simp [hb]) t ht
        · exact ih (by simp [hr]) t ht

theorem map_filter_all (tasks : Collection) (p : Task → Bool)
    (h : ∀ t ∈ allTasks tasks, p t = true) :
    tasks.map (fun b => (b.1, b.2.filter p)) = tasks := by
  induction tasks with
  | nil => rfl
  | cons e rest ih =>
    obtain ⟨k, ts⟩ := e
    rw [allTasks_cons] at h
    have h1 : ts.filter p = ts :=
      List.filter_eq_self.mpr (fun t ht => h t (List.mem_append_left _ ht))
    simp [h1, ih (fun t ht => h t (List.mem_append_right _ ht))]

theorem map_filter_none (tasks : Collection) (p : Task → Bool)
    (h : ∀ t ∈ allTasks tasks, p t = false) :
    tasks.map (fun b => (b.1, b.2.filter p)) = tasks.map (fun b => (b.1, [])) := by
  induction tasks with
  | nil => rfl
  | cons e rest ih =>
    obtain ⟨k, ts⟩ := e
    rw [allTasks_cons] at h
    have h1 : ts.filter p = [] :=
      List.filter_eq_nil_iff.mpr (fun t ht => by simp [h t (List.mem_append_left _ ht)])
    simp [h1, ih (fun t ht => h t (List.mem_append_right _ ht))]

/-- C10 (as stated, refuted): a board whose one task was stored without title;
with the search "spec" the callback reads `task.title.toLowerCase()` and
`filterTasks` throws instead of returning a collection. -/
theorem filterTasks_throws_without_title :
    allTasks untitledBoard ≠ [] ∧ filterTasks ⟨"spec", "all", "all"⟩ untitledBoard = none := by
  decide

/-- C10 (amended): `filterTasks` returns a collection exactly when its
callback can be evaluated on every stored task (with a search set the title is
a string, and so is the description unless the title holds the search; with a
priority filter set the priority is a string), and throws otherwise. Whenever
it can be evaluated, which is so in particular when title, description and
priority of every task are strings, it returns the same bucket keys, each with
the tasks of the input bucket, in their order, that pass the search, label and
priority predicates together; with a search that no task passes every bucket
is empty. With the three filters at match-all it returns the input, for every
collection. The input is a value and is not changed. -/
theorem filterTasks_spec [Engine] (filters : FilterSet) (tasks : Collection) :
    filterTasks filters tasks =
      (if (allTasks tasks).all (evaluable filters)
        then some (tasks.map (fun b => (b.1, b.2.filter (passes filters)))) else none) ∧
    keys (tasks.map (fun b => (b.1, b.2.filter (passes filters)))) = keys tasks ∧
    ((∀ t ∈ allTasks tasks, hasText t = true) →
      filterTasks filters tasks =
        some (tasks.map (fun b => (b.1, b.2.filter (passes filters))))) ∧
    ((∀ t ∈ allTasks tasks, evaluable filters t = true) →
      (∀ t ∈ allTasks tasks, passesSearch filters t = false) →
        filterTasks filters tasks = some (tasks.map (fun b => (b.1, [])))) ∧
    (filters.search = "" → filters.label = "all" → filters.priority = "all" →
      filterTasks filters tasks = some tasks) := by
  refine ⟨?_, keys_map tasks _, fun htext => ?_, fun hev hno => ?_, fun hs hl hp => ?_⟩
  · by_cases h : ∀ t ∈ allTasks tasks, evaluable filters t = true
    · rw [filterTasks_eq filters tasks h, if_pos (List.all_eq_true.mpr h)]
    · have hnone : filterTasks filters tasks = none := by
        cases hf : filterTasks filters tasks with
        | none => rfl
        | some r =>
          exact absurd ((filterTasks_isSome filters tasks) (by rw [hf]; rfl)) h
      rw [hnone, if_neg (fun hall => h (List.all_eq_true.mp hall))]
  · exact filterTasks_eq filters tasks
      (fun t ht => evaluable_of_hasText filters t (htext t ht))
  · rw [filterTasks_eq filters tasks hev, map_filter_none tasks (passes filters)]
    intro t ht
    simp [passes, hno t ht]
  · rw [filterTasks_eq filters tasks (fun t _ => evaluable_match_all filters t hs hp),
      map_filter_all tasks (passes filters)]
    intro t _
    simp [passes, passesSearch, passesLabel, passesPriority, hs, hl, hp]

/-- C10 (amended) at the three-task board: search "spec" with priority "LOW"
keeps the done task only; the match-all filter returns the board; search
"zzz" empties every bucket. -/
theorem filterTasks_spec_witness :
    (∀ t ∈ allTasks threeTaskBoard, hasText t = true) ∧
    filterTasks ⟨"spec", "LOW", "all"⟩ threeTaskBoard =
      some (threeTaskBoard.map (fun b => (b.1, b.2.filter (passes ⟨"spec", "LOW", "all"⟩)))) ∧
    filterTasks ⟨"spec", "LOW", "all"⟩ threeTaskBoard =
      some [("todo", []), ("inprogress", []), ("done", [taskC])] ∧
    (∀ t ∈ allTasks threeTaskBoard, evaluable ⟨"zzz", "all", "all"⟩ t = true) ∧
    (∀ t ∈ allTasks threeTaskBoard, passesSearch ⟨"zzz", "all", "all"⟩ t = false) ∧
    filterTasks ⟨"zzz", "all", "all"⟩ threeTaskBoard =
      some (threeTaskBoard.map (fun b => (b.1, []))) ∧
    filterTasks ⟨"", "all", "all"⟩ threeTaskBoard = some threeTaskBoard :=
  ⟨by decide,
    (filterTasks_spec ⟨"spec", "LOW", "all"⟩ threeTaskBoard).2.2.1 (by decide),
    by decide,
    by decide,
    by decide,
    (filterTasks_spec ⟨"zzz", "all", "all"⟩ threeTaskBoard).2.2.2.1 (by decide) (by decide),
    (filterTasks_spec ⟨"", "all", "all"⟩ threeTaskBoard).2.2.2.2 rfl rfl rfl⟩

/-! ## C9: the create, move, remove scenario -/

/-- C9: from the empty board, for every clock reading and every field set
whose four required fields are non-empty: after `addTask` in todo the count is
1 and todo has one task; after `handleTaskMove` of the created task to done,
todo is empty, done holds the task alone and its status is "done"; after
`removeTask` of its id the count is 0. -/
theorem scenario_create_move_remove [Engine] (fields : Fields) (c1 c2 : Clock) (filters : FilterSet)
    (hreq : missingRequired fields.toTask = false) :
    getTasksCount (addTask emptyBoard fields.toTask "todo" c1).1 = 1 ∧
    (getTasksByStatus (addTask emptyBoard fields.toTask "todo" c1).1 "todo").length = 1 ∧
    ∃ a, (addTask emptyBoard fields.toTask "todo" c1).2 = some a ∧
      a.id = some (Val.num c1.now) ∧
      (getTasksByStatus
        (handleTaskMove (addTask emptyBoard fields.toTask "todo" c1).1 filters (Val.num c1.now)
          "done" c2).1 "todo").length = 0 ∧
      (getTasksByStatus
        (handleTaskMove (addTask emptyBoard fields.toTask "todo" c1).1 filters (Val.num c1.now)
          "done" c2).1 "done") = [{ a with status := some (Val.str "done") }] ∧
      getTaskById
        (handleTaskMove (addTask emptyBoard fields.toTask "todo" c1).1 filters (Val.num c1.now)
          "done" c2).1 (Val.num c1.now) = some { a with status := some (Val.str "done") } ∧
      getTasksCount
        (removeTask
          (handleTaskMove (addTask emptyBoard fields.toTask "todo" c1).1 filters
            (Val.num c1.now) "done" c2).1 (Val.num c1.now)).1 = 0 := by
  obtain ⟨title, description, priority, label, dueDate⟩ := fields
  refine ⟨?_, ?_, _, rfl, ?_, ?_, ?_, ?_, ?_⟩
  all_goals
    simp [addTask, newTaskOf, spread, emptyBoard, getBucket, setBucket, getTasksByStatus,
      handleTaskMove, getTaskById, removeTask, toKey, getTasksCount, Fields.toTask]

/-- C9 at the field set of the specification (title "Write spec",
description "x", priority "high", label "work"), created at clock reading
1000 and moved at 2000. -/
theorem scenario_create_move_remove_witness :
    missingRequired specFields.toTask = false ∧
    getTasksCount (addTask emptyBoard specFields.toTask "todo" ⟨1000, "a"⟩).1 = 1 ∧
    (getTasksByStatus (addTask emptyBoard specFields.toTask "todo" ⟨1000, "a"⟩).1 "todo").length
      = 1 :=
  ⟨by decide,
    (scenario_create_move_remove specFields ⟨1000, "a"⟩ ⟨2000, "b"⟩ ⟨"", "all", "all"⟩
      (by decide)).1,
    (scenario_create_move_remove specFields ⟨1000, "a"⟩ ⟨2000, "b"⟩ ⟨"", "all", "all"⟩
      (by decide)).2.1⟩

/-! ## The move handler in normal form -/

theorem getBucket_mem (c : Collection) (key : String) (ts : List Task)
    (h : getBucket c key = some ts) : (key, ts) ∈ c := by
  induction c with
  | nil => simp [getBucket] at h
  | cons e rest ih =>
    obtain ⟨k, us⟩ := e
    by_cases hk : k = key
    · simp only [getBucket, hk, if_true, Option.some.injEq] at h
      simp [hk, h]
    · simp only [getBucket, hk, if_false] at h
      exact List.mem_cons_of_mem _ (ih h)

theorem setBucket_self (c : Collection) (key : String) (ts : List Task)
    (h : getBucket c key = some ts) : setBucket c key ts = c := by
  induction c with
  | nil => rfl
  | cons e rest ih =>
    obtain ⟨k, us⟩ := e
    by_cases hk : k = key
    · simp only [getBucket, hk, if_true, Option.some.injEq] at h
      simp [setBucket, hk, h]
    · simp only [getBucket, hk, if_false] at h
      simp [setBucket, hk, ih h]

theorem getBucket_removeTask (tasks : Collection) (taskId : Val) (key : String) :
    getBucket (removeTask tasks taskId).1 key =
      (getBucket tasks key).map (fun ts => ts.filter (fun task => task.id != some taskId)) :=
  getBucket_map tasks _ key

/-- The second filtering of the source bucket (line 866) changes nothing:
`removeTask` has filtered it already. -/
theorem setBucket_refilter (tasks : Collection) (taskId : Val) (key : String)
    (bucket : List Task) (h : getBucket (removeTask tasks taskId).1 key = some bucket) :
    setBucket (removeTask tasks taskId).1 key
        (bucket.filter (fun t => t.id != some taskId)) = (removeTask tasks taskId).1 := by
  have hb : bucket.filter (fun t => t.id != some taskId) = bucket := by
    rw [getBucket_removeTask] at h
    cases hg : getBucket tasks key with
    | none => simp [hg] at h
    | some ts =>
      simp only [hg, Option.map_some', Option.some.injEq] at h
      rw [← h, List.filter_filter]
      simp
  rw [hb]
  exact setBucket_self _ _ _ h

/-- A move that passes the guard of line 864 and finds the bucket named by the
task's status is `removeTask` followed by `addTask` of the task with its
status replaced. -/
theorem handleTaskMove_moves [Engine] (tasks : Collection) (filters : FilterSet) (taskId : Val)
    (newStatus : String) (clock : Clock) (t : Task) (bucket : List Task)
    (hg : getTaskById tasks taskId = some t) (hs : t.status ≠ some (Val.str newStatus))
    (hb : getBucket tasks (toKey t.status) = some bucket) :
    (handleTaskMove tasks filters taskId newStatus clock).1 =
      (addTask (removeTask tasks taskId).1 { t with status := some (Val.str newStatus) }
        newStatus clock).1 := by
  have hb1 : getBucket (removeTask tasks taskId).1 (toKey t.status) =
      some (bucket.filter (fun task => task.id != some taskId)) := by
    rw [getBucket_removeTask, hb]; rfl
  unfold handleTaskMove
  simp only [hg, hs, if_false, hb1]
  rw [setBucket_refilter tasks taskId (toKey t.status) _ hb1]
  cases (addTask (removeTask tasks taskId).1 { t with status := some (Val.str newStatus) }
    newStatus clock).2 <;> rfl

/-- A move whose task names no bucket of the collection in its status: the
`TypeError` of line 866 leaves the collection as `removeTask` left it. -/
theorem handleTaskMove_throws [Engine] (tasks : Collection) (filters : FilterSet) (taskId : Val)
    (newStatus : String) (clock : Clock) (t : Task)
    (hg : getTaskById tasks taskId = some t) (hs : t.status ≠ some (Val.str newStatus))
    (hb : getBucket tasks (toKey t.status) = none) :
    handleTaskMove tasks filters taskId newStatus clock = ((removeTask tasks taskId).1, []) := by
  have hb1 : getBucket (removeTask tasks taskId).1 (toKey t.status) = none := by
    rw [getBucket_removeTask, hb]; rfl
  unfold handleTaskMove
  simp only [hg, hs, if_false, hb1]

/-- A move to a status that names an inherited property: `addTask` returns
`null`, so the task is removed and not stored again, and nothing is saved or
rendered. -/
theorem handleTaskMove_inherited_status :
    handleTaskMove threeTaskBoard ⟨"", "all", "all"⟩ (Val.num 1) "constructor" ⟨9, "z"⟩ =
      ([("todo", [taskB]), ("inprogress", []), ("done", [taskC])], []) := by
  decide

/-- The four outcomes of a move, as far as the collection goes. -/
theorem handleTaskMove_cases [Engine] (tasks : Collection) (filters : FilterSet) (taskId : Val)
    (newStatus : String) (clock : Clock) :
    (handleTaskMove tasks filters taskId newStatus clock).1 = tasks ∨
    (handleTaskMove tasks filters taskId newStatus clock).1 = (removeTask tasks taskId).1 ∨
    ∃ t, t ∈ allTasks tasks ∧ t.id = some taskId ∧
      (handleTaskMove tasks filters taskId newStatus clock).1 =
        (addTask (removeTask tasks taskId).1 { t with status := some (Val.str newStatus) }
          newStatus clock).1 := by
  cases hg : getTaskById tasks taskId with
  | none => left; simp [handleTaskMove, hg]
  | some t =>
    by_cases hs : t.status = some (Val.str newStatus)
    · left; simp [handleTaskMove, hg, hs]
    · cases hb : getBucket tasks (toKey t.status) with
      | none =>
        right; left
        rw [handleTaskMove_throws tasks filters taskId newStatus clock t hg hs hb]
      | some bucket =>
        right; right
        exact ⟨t, (getTaskById_some tasks taskId t hg).1, (getTaskById_some tasks taskId t hg).2,
          handleTaskMove_moves tasks filters taskId newStatus clock t bucket hg hs hb⟩

/-! ## C2: the status property and the bucket key -/

theorem StatusMatches_setBucket (c : Collection) (key : String) (b : List Task)
    (hc : StatusMatches c) (hb : ∀ t ∈ b, t.status = some (Val.str key)) :
    StatusMatches (setBucket c key b) := by
  induction c with
  | nil => exact hc
  | cons e rest ih =>
    obtain ⟨k, ts⟩ := e
    have hrest : StatusMatches rest := fun x hx => hc x (List.mem_cons_of_mem _ hx)
    by_cases hk : k = key
    · subst hk
      simp only [setBucket, if_true]
      intro x hx
      rcases List.mem_cons.mp hx with rfl | hx
      · exact hb
      · exact hrest x hx
    · simp only [setBucket, hk, if_false]
      intro x hx
      rcases List.mem_cons.mp hx with rfl | hx
      · exact hc _ (List.mem_cons_self _ _)
      · exact ih hrest x hx

theorem StatusMatches_addTask (c : Collection) (task : Task) (status : String) (clock : Clock)
    (hc : StatusMatches c)
    (ht : task.status = none ∨ task.status = some (Val.str status)) :
    StatusMatches (addTask c task status clock).1 := by
  have hnew : (newTaskOf task status clock).status = some (Val.str status) := by
    rcases ht with h | h <;> simp [newTaskOf, spread, h]
  rcases addTask_cases c task status clock with h | ⟨ts, hg, h⟩ | ⟨hg, h⟩
  · rw [h]; exact hc
  · rw [h]
    apply StatusMatches_setBucket _ _ _ hc
    intro t ht1
    rcases List.mem_append.mp ht1 with h2 | h2
    · exact hc _ (getBucket_mem c status ts hg) t h2
    · simp only [List.mem_singleton] at h2
      rw [h2]; exact hnew
  · rw [h]
    apply StatusMatches_setBucket
    · intro x hx
      rcases List.mem_append.mp hx with hx | hx
      · exact hc x hx
      · simp only [List.mem_singleton] at hx
        subst hx
        simp
    · simpa using hnew

theorem StatusMatches_removeTask (c : Collection) (taskId : Val) (hc : StatusMatches c) :
    StatusMatches (removeTask c taskId).1 := by
  intro x hx
  simp only [removeTask, List.mem_map] at hx
  obtain ⟨b, hb, rfl⟩ := hx
  intro t ht
  exact hc b hb t (List.mem_filter.mp ht).1

theorem assignFirst_status (ts : List Task) (taskId : Val) (updates : Task) (v : Option Val)
    (hu : updates.status = none) (h : ∀ t ∈ ts, t.status = v) :
    ∀ t ∈ assignFirst ts taskId updates, t.status = v := by
  induction ts with
  | nil => simp [assignFirst]
  | cons a rest ih =>
    have ha := h a (List.mem_cons_self _ _)
    have hr : ∀ t ∈ rest, t.status = v := fun t ht => h t (List.mem_cons_of_mem _ ht)
    by_cases hid : a.id = some taskId
    · simp only [assignFirst, hid, beq_self_eq_true, if_true]
      intro t ht
      rcases List.mem_cons.mp ht with rfl | ht
      · simp [spread, hu, ha]
      · exact hr t ht
    · have hid' : (a.id == some taskId) = false := by simpa using hid
      simp only [assignFirst, hid', Bool.false_eq_true, if_false]
      intro t ht
      rcases List.mem_cons.mp ht with rfl | ht
      · exact ha
      · exact ih hr t ht

theorem StatusMatches_updateTask (c : Collection) (taskId : Val) (updates : Task)
    (hc : StatusMatches c) (hu : updates.status = none) :
    StatusMatches (updateTask c taskId updates).1 := by
  induction c with
  | nil => exact hc
  | cons e rest ih =>
    obtain ⟨k, ts⟩ := e
    have hrest : StatusMatches rest := fun x hx => hc x (List.mem_cons_of_mem _ hx)
    have hts : ∀ t ∈ ts, t.status = some (Val.str k) := hc (k, ts) (List.mem_cons_self _ _)
    cases hf : ts.find? (fun task => task.id == some taskId) with
    | some t =>
      simp only [updateTask, hf]
      intro x hx
      rcases List.mem_cons.mp hx with rfl | hx
      · exact assignFirst_status ts taskId updates _ hu hts
      · exact hrest x hx
    | none =>
      simp only [updateTask, hf]
      intro x hx
      rcases List.mem_cons.mp hx with rfl | hx
      · exact hts
      · exact ih hrest x hx

theorem StatusMatches_handleTaskMove [Engine] (c : Collection) (filters : FilterSet) (taskId : Val)
    (newStatus : String) (clock : Clock) (hc : StatusMatches c) :
    StatusMatches (handleTaskMove c filters taskId newStatus clock).1 := by
  rcases handleTaskMove_cases c filters taskId newStatus clock with h | h | ⟨t, _, _, h⟩
  · rw [h]; exact hc
  · rw [h]; exact StatusMatches_removeTask c taskId hc
  · rw [h]
    exact StatusMatches_addTask _ _ _ _ (StatusMatches_removeTask c taskId hc) (Or.inr rfl)

theorem StatusMatches_step [Engine] (c : Collection) (op : Op) (hc : StatusMatches c)
    (hop : op.noStatus = true) : StatusMatches (step c op) := by
  cases op with
  | create fields status clock =>
    exact StatusMatches_addTask c fields.toTask status.key clock hc (Or.inl rfl)
  | update taskId patch =>
    exact StatusMatches_updateTask c taskId patch hc (by simpa [Op.noStatus] using hop)
  | move taskId newStatus filters clock =>
    exact StatusMatches_handleTaskMove c filters taskId newStatus.key clock hc
  | remove taskId => exact StatusMatches_removeTask c taskId hc

theorem StatusMatches_run [Engine] (ops : List Op) (c : Collection) (hc : StatusMatches c)
    (hops : ∀ op ∈ ops, op.noStatus = true) : StatusMatches (run c ops) := by
  induction ops generalizing c with
  | nil => exact hc
  | cons op rest ih =>
    simp only [run, List.foldl_cons]
    exact ih (step c op) (StatusMatches_step c op hc (hops op (List.mem_cons_self _ _)))
      (fun o ho => hops o (List.mem_cons_of_mem _ ho))

theorem StatusMatches_emptyBoard : StatusMatches emptyBoard := by
  unfold StatusMatches
  decide

/-- C2 (as stated, refuted): after a create in todo, an update whose patch
carries status "done" leaves the task in the todo bucket with status "done". -/
theorem status_drifts_from_bucket :
    ¬ StatusMatches (run emptyBoard
        [Op.create specFields Status.todo ⟨5, "t"⟩,
         Op.update (Val.num 5) { status := some (Val.str "done") }]) := by
  unfold StatusMatches
  decide

/-- C2 (amended): from the empty three-bucket board, for every sequence of
create, update, move and remove operations in which no patch carries a
status property, after every operation each stored task's status property is
the key of the bucket that holds it. -/
theorem status_matches_bucket [Engine] (ops : List Op) (hops : ∀ op ∈ ops, op.noStatus = true)
    (n : Nat) : StatusMatches (run emptyBoard (ops.take n)) :=
  StatusMatches_run (ops.take n) emptyBoard StatusMatches_emptyBoard
    (fun op hop => hops op (List.mem_of_mem_take hop))

/-- C2 (amended) on a sequence of create, update of the title, move to done,
create, remove: the invariant holds after each of its five operations. -/
theorem status_matches_bucket_witness :
    (∀ op ∈ exampleOps, op.noStatus = true) ∧
    StatusMatches (run emptyBoard (exampleOps.take 3)) ∧
    StatusMatches (run emptyBoard (exampleOps.take 5)) :=
  ⟨by decide, status_matches_bucket exampleOps (by decide) 3,
    status_matches_bucket exampleOps (by decide) 5⟩

/-! ## C1: distinct ids, one bucket per task -/

theorem allTasks_setBucket_perm (c : Collection) (key : String) (ts : List Task) (t : Task)
    (h : getBucket c key = some ts) :
    List.Perm (allTasks (setBucket c key (ts ++ [t]))) (t :: allTasks c) := by
  induction c with
  | nil => simp [getBucket] at h
  | cons e rest ih =>
    obtain ⟨k, us⟩ := e
    by_cases hk : k = key
    · simp only [getBucket, hk, if_true, Option.some.injEq] at h
      subst h
      simp only [setBucket, hk, if_true, allTasks_cons, List.append_assoc, List.singleton_append]
      exact List.perm_middle
    · simp only [getBucket, hk, if_false] at h
      simp only [setBucket, hk, if_false, allTasks_cons]
      exact ((ih h).append_left us).trans List.perm_middle

theorem allTasks_addTask_perm (c : Collection) (task : Task) (status : String) (clock : Clock) :
    (addTask c task status clock).1 = c ∨
    List.Perm (allTasks (addTask c task status clock).1)
      (newTaskOf task status clock :: allTasks c) := by
  rcases addTask_cases c task status clock with h | ⟨ts, hg, h⟩ | ⟨hg, h⟩
  · rw [h]; exact Or.inl rfl
  · rw [h]; exact Or.inr (allTasks_setBucket_perm c status ts _ hg)
  · rw [h]
    have := allTasks_setBucket_perm _ status [] (newTaskOf task status clock)
      (getBucket_append_new c status hg)
    rw [allTasks_append_new] at this
    exact Or.inr this

theorem assignFirst_ids (ts : List Task) (taskId : Val) (updates : Task)
    (hu : updates.id = none) :
    (assignFirst ts taskId updates).map (fun t => t.id) = ts.map (fun t => t.id) := by
  induction ts with
  | nil => rfl
  | cons a rest ih =>
    by_cases hid : (a.id == some taskId) = true
    · simp [assignFirst, hid, spread, hu]
    · simp [assignFirst, hid, ih]

theorem updateTask_ids (c : Collection) (taskId : Val) (updates : Task)
    (hu : updates.id = none) :
    (allTasks (updateTask c taskId updates).1).map (fun t => t.id) =
      (allTasks c).map (fun t => t.id) := by
  induction c with
  | nil => rfl
  | cons e rest ih =>
    obtain ⟨k, ts⟩ := e
    cases hf : ts.find? (fun task => task.id == some taskId) with
    | some t =>
      simp only [updateTask, hf, allTasks_cons, List.map_append,
        assignFirst_ids ts taskId updates hu]
    | none =>
      simp only [updateTask, hf, allTasks_cons, List.map_append, ih]

theorem IdsFrom_addTask (c : Collection) (used : List Int) (fields : Task) (status : String)
    (clock : Clock) (hc : IdsFrom c used) (hf : fields.id = none) (hfresh : clock.now ∉ used) :
    IdsFrom (addTask c fields status clock).1 (clock.now :: used) := by
  have hid : (newTaskOf fields status clock).id = some (Val.num clock.now) := by
    simp [newTaskOf, spread, hf]
  rcases allTasks_addTask_perm c fields status clock with heq | hperm
  · rw [heq]
    exact ⟨hc.1, fun t ht => by
      obtain ⟨n, hn, htn⟩ := hc.2 t ht
      exact ⟨n, List.mem_cons_of_mem _ hn, htn⟩⟩
  constructor
  · unfold UniqueIds
    rw [(hperm.map (fun t => t.id)).nodup_iff, List.map_cons, List.nodup_cons]
    refine ⟨?_, hc.1⟩
    intro hmem
    obtain ⟨t, ht, hte⟩ := List.mem_map.mp hmem
    obtain ⟨n, hn, htn⟩ := hc.2 t ht
    rw [hid, htn] at hte
    have : n = clock.now := by simpa using hte
    exact hfresh (this ▸ hn)
  · intro t ht
    rcases List.mem_cons.mp (hperm.subset ht) with rfl | ht
    · exact ⟨clock.now, List.mem_cons_self _ _, hid⟩
    · obtain ⟨n, hn, htn⟩ := hc.2 t ht
      exact ⟨n, List.mem_cons_of_mem _ hn, htn⟩

theorem IdsFrom_updateTask (c : Collection) (used : List Int) (taskId : Val) (patch : Task)
    (hc : IdsFrom c used) (hp : patch.id = none) :
    IdsFrom (updateTask c taskId patch).1 used := by
  have hids := updateTask_ids c taskId patch hp
  constructor
  · unfold UniqueIds
    rw [hids]
    exact hc.1
  · intro t ht
    have hmem : t.id ∈ (allTasks (updateTask c taskId patch).1).map (fun t => t.id) :=
      List.mem_map.mpr ⟨t, ht, rfl⟩
    rw [hids] at hmem
    obtain ⟨u, hu, hue⟩ := List.mem_map.mp hmem
    obtain ⟨n, hn, hun⟩ := hc.2 u hu
    exact ⟨n, hn, by rw [← hue, hun]⟩

theorem IdsFrom_removeTask (c : Collection) (used : List Int) (taskId : Val)
    (hc : IdsFrom c used) : IdsFrom (removeTask c taskId).1 used := by
  constructor
  · unfold UniqueIds
    rw [allTasks_removeTask]
    exact hc.1.sublist ((List.filter_sublist _).map _)
  · intro t ht
    rw [allTasks_removeTask] at ht
    exact hc.2 t (List.mem_filter.mp ht).1

theorem IdsFrom_handleTaskMove [Engine] (c : Collection) (used : List Int) (filters : FilterSet)
    (taskId : Val) (newStatus : String) (clock : Clock) (hc : IdsFrom c used) :
    IdsFrom (handleTaskMove c filters taskId newStatus clock).1 used := by
  rcases handleTaskMove_cases c filters taskId newStatus clock with h | h | ⟨t, ht, htid, h⟩
  · rw [h]; exact hc
  · rw [h]; exact IdsFrom_removeTask c used taskId hc
  · rw [h]
    have hr := IdsFrom_removeTask c used taskId hc
    have hid : (newTaskOf { t with status := some (Val.str newStatus) } newStatus clock).id =
        some taskId := by
      simp [newTaskOf, spread, htid]
    rcases allTasks_addTask_perm (removeTask c taskId).1
      { t with status := some (Val.str newStatus) } newStatus clock with heq | hperm
    · rw [heq]; exact hr
    constructor
    · unfold UniqueIds
      rw [(hperm.map (fun t => t.id)).nodup_iff, List.map_cons, List.nodup_cons]
      refine ⟨?_, hr.1⟩
      intro hmem
      obtain ⟨u, hu, hue⟩ := List.mem_map.mp hmem
      rw [allTasks_removeTask] at hu
      have := (List.mem_filter.mp hu).2
      rw [hid] at hue
      simp [hue] at this
    · intro u hu
      rcases List.mem_cons.mp (hperm.subset hu) with rfl | hu
      · obtain ⟨n, hn, htn⟩ := hc.2 t ht
        exact ⟨n, hn, by rw [hid, ← htid, htn]⟩
      · exact hr.2 u hu

theorem UniqueIds_run [Engine] (ops : List Op) (c : Collection) (used : List Int)
    (hc : IdsFrom c used) (hops : ∀ op ∈ ops, op.noId = true)
    (hnd : (createNows ops).Nodup) (hfresh : ∀ n ∈ createNows ops, n ∉ used) :
    UniqueIds (run c ops) := by
  induction ops generalizing c used with
  | nil => exact hc.1
  | cons op rest ih =>
    have hop := hops op (List.mem_cons_self _ _)
    have hrest : ∀ o ∈ rest, o.noId = true := fun o ho => hops o (List.mem_cons_of_mem _ ho)
    simp only [run, List.foldl_cons]
    cases op with
    | create fields status clock =>
      simp only [createNows, List.nodup_cons] at hnd
      simp only [createNows, List.mem_cons, forall_eq_or_imp] at hfresh
      refine ih (step c (Op.create fields status clock)) (clock.now :: used)
        (IdsFrom_addTask c used fields.toTask status.key clock hc rfl hfresh.1) hrest hnd.2 ?_
      intro n hn hmem
      rcases List.mem_cons.mp hmem with rfl | hmem
      · exact hnd.1 hn
      · exact hfresh.2 n hn hmem
    | update taskId patch =>
      exact ih (step c (Op.update taskId patch)) used
        (IdsFrom_updateTask c used taskId patch hc (by simpa [Op.noId] using hop)) hrest
        (by simpa [createNows] using hnd) (by simpa [createNows] using hfresh)
    | move taskId newStatus filters clock =>
      exact ih (step c (Op.move taskId newStatus filters clock)) used
        (IdsFrom_handleTaskMove c used filters taskId newStatus.key clock hc) hrest
        (by simpa [createNows] using hnd) (by simpa [createNows] using hfresh)
    | remove taskId =>
      exact ih (step c (Op.remove taskId)) used (IdsFrom_removeTask c used taskId hc) hrest
        (by simpa [createNows] using hnd) (by simpa [createNows] using hfresh)

theorem createNows_take_sublist (ops : List Op) (n : Nat) :
    List.Sublist (createNows (ops.take n)) (createNows ops) := by
  induction ops generalizing n with
  | nil => simp [createNows]
  | cons op rest ih =>
    cases n with
    | zero => simp [createNows]
    | succ m =>
      cases op with
      | create fields status clock =>
        simp only [List.take_succ_cons, createNows]
        exact (ih m).cons₂ _
      | update taskId patch => simpa [createNows] using ih m
      | move taskId newStatus filters clock => simpa [createNows] using ih m
      | remove taskId => simpa [createNows] using ih m

theorem SingleBucket_of_UniqueIds (c : Collection) (h : UniqueIds c) : SingleBucket c := by
  have hnd : (allTasks c).Nodup := List.Nodup.of_map _ h
  clear h
  induction c with
  | nil => intro t ht; simp [allTasks] at ht
  | cons e rest ih =>
    obtain ⟨k, ts⟩ := e
    rw [allTasks_cons, List.nodup_append] at hnd
    obtain ⟨_, hrest, hdisj⟩ := hnd
    intro t ht
    rw [allTasks_cons] at ht
    have hin_rest : ∀ key us, (key, us) ∈ rest → t ∈ us → t ∈ allTasks rest := by
      intro key us hmem htu
      exact List.mem_flatMap.mpr ⟨(key, us), hmem, htu⟩
    rcases List.mem_append.mp ht with hhead | htail
    · refine ⟨k, ⟨ts, List.mem_cons_self _ _, hhead⟩, ?_⟩
      rintro key ⟨us, hmem, htu⟩
      rcases List.mem_cons.mp hmem with heq | hmem
      · exact (Prod.mk.inj heq).1
      · exact absurd (hin_rest key us hmem htu) (fun h => hdisj hhead h)
    · obtain ⟨key, ⟨us, hmem, htu⟩, huniq⟩ := ih hrest t htail
      refine ⟨key, ⟨us, List.mem_cons_of_mem _ hmem, htu⟩, ?_⟩
      rintro key2 ⟨us2, hmem2, htu2⟩
      rcases List.mem_cons.mp hmem2 with heq | hmem2
      · have hus : us2 = ts := (Prod.mk.inj heq).2
        exact absurd htail (fun h => hdisj (hus ▸ htu2) h)
      · exact huniq key2 ⟨us2, hmem2, htu2⟩

/-- C1 (as stated, refuted): two creates that read the same `Date.now()` give
two tasks with id 5; and an update whose patch carries id 5 gives a second
task that id. -/
theorem ids_collide :
    ¬ UniqueIds (run emptyBoard
        [Op.create specFields Status.todo ⟨5, "t"⟩,
         Op.create otherFields Status.todo ⟨5, "t"⟩]) ∧
    ¬ UniqueIds (run emptyBoard
        [Op.create specFields Status.todo ⟨5, "t"⟩,
         Op.create otherFields Status.done ⟨6, "u"⟩,
         Op.update (Val.num 6) { id := some (Val.num 5) }]) := by
  unfold UniqueIds
  decide

/-- C1 (amended): from the empty three-bucket board, for every sequence of
create, update, move and remove operations in which the `Date.now()` readings
of the creates are pairwise distinct and no patch carries an id property,
after every operation the ids of all stored tasks are pairwise distinct
across the buckets and every stored task is in exactly one bucket. -/
theorem ids_unique_single_bucket [Engine] (ops : List Op) (hops : ∀ op ∈ ops, op.noId = true)
    (hclock : (createNows ops).Nodup) (n : Nat) :
    UniqueIds (run emptyBoard (ops.take n)) ∧ SingleBucket (run emptyBoard (ops.take n)) := by
  have h : UniqueIds (run emptyBoard (ops.take n)) := by
    refine UniqueIds_run (ops.take n) emptyBoard [] ⟨?_, ?_⟩
      (fun op hop => hops op (List.mem_of_mem_take hop))
      (hclock.sublist (createNows_take_sublist ops n)) (fun _ _ h => by simp at h)
    · unfold UniqueIds; decide
    · intro t ht; simp [allTasks, emptyBoard] at ht
  exact ⟨h, SingleBucket_of_UniqueIds _ h⟩

/-- C1 (amended) on the five-operation sequence, whose creates read the clock
at 5 and at 7: the invariants hold after three and after all five. -/
theorem ids_unique_single_bucket_witness :
    (∀ op ∈ exampleOps, op.noId = true) ∧ (createNows exampleOps).Nodup ∧
    (UniqueIds (run emptyBoard (exampleOps.take 3)) ∧
      SingleBucket (run emptyBoard (exampleOps.take 3))) ∧
    (UniqueIds (run emptyBoard (exampleOps.take 5)) ∧
      SingleBucket (run emptyBoard (exampleOps.take 5))) :=
  ⟨by decide, by decide, ids_unique_single_bucket exampleOps (by decide) (by decide) 3,
    ids_unique_single_bucket exampleOps (by decide) (by decide) 5⟩

/-! ## C8: a move to another status -/

theorem getBucket_of_mem_keys (c : Collection) (key : String) (h : key ∈ keys c) :
    ∃ ts, getBucket c key = some ts := by
  induction c with
  | nil => simp [keys] at h
  | cons e rest ih =>
    obtain ⟨k, us⟩ := e
    by_cases hk : k = key
    · exact ⟨us, by simp [getBucket, hk]⟩
    · have hr : key ∈ keys rest := by
        simp only [keys, List.map_cons, List.mem_cons] at h
        rcases h with h | h
        · exact absurd h.symm hk
        · exact h
      obtain ⟨ts, hts⟩ := ih hr
      exact ⟨ts, by simp [getBucket, hk, hts]⟩

theorem mem_allTasks_of_getBucket (c : Collection) (key : String) (ts : List Task) (t : Task)
    (h : getBucket c key = some ts) (ht : t ∈ ts) : t ∈ allTasks c :=
  List.mem_flatMap.mpr ⟨(key, ts), getBucket_mem c key ts h, ht⟩

theorem addTask_present (c : Collection) (task : Task) (status : String) (clock : Clock)
    (old : List Task) (h : getBucket c status = some old) :
    (addTask c task status clock).1 = setBucket c status (old ++ [newTaskOf task status clock]) := by
  simp [addTask, h]

theorem getTaskById_of_only (c : Collection) (taskId : Val) (t : Task)
    (honly : ∀ u ∈ allTasks c, u.id = some taskId → u = t)
    (ht : t ∈ allTasks c) (hid : t.id = some taskId) : getTaskById c taskId = some t := by
  cases hg : getTaskById c taskId with
  | none =>
    have hall : ∀ u ∈ allTasks c, u.id ≠ some taskId := by
      clear honly ht
      induction c with
      | nil => intro u hu; simp [allTasks] at hu
      | cons e rest ih =>
        obtain ⟨k, ts⟩ := e
        cases hf : ts.find? (fun task => task.id == some taskId) with
        | some v => simp [getTaskById, hf] at hg
        | none =>
          have hrest : getTaskById rest taskId = none := by simpa [getTaskById, hf] using hg
          rw [List.find?_eq_none] at hf
          intro u hu
          rw [allTasks_cons] at hu
          rcases List.mem_append.mp hu with hu | hu
          · simpa using hf u hu
          · exact ih hrest u hu
    exact absurd hid (hall t ht)
  | some u =>
    have hu' := getTaskById_some c taskId u hg
    rw [honly u hu'.1 hu'.2]

theorem newTaskOf_stamped (t : Task) (status : String) (clock : Clock) (v w : Val)
    (hid : t.id = some v) (hca : t.createdAt = some w) :
    newTaskOf { t with status := some (Val.str status) } status clock =
      { t with status := some (Val.str status) } := by
  obtain ⟨id, createdAt, st, title, description, priority, label, dueDate⟩ := t
  simp only at hid hca
  subst hid hca
  cases title <;> cases description <;> cases priority <;> cases label <;> cases dueDate <;>
    simp [newTaskOf, spread]

theorem handleTaskMove_moved [Engine] (tasks : Collection) (filters : FilterSet) (taskId : Val)
    (newStatus : String) (clock : Clock) (t : Task) (target : List Task)
    (honly : (allTasks tasks).filter (fun u => u.id == some taskId) = [t])
    (hstatus : toKey t.status ∈ keys tasks)
    (hcur : t.status ≠ some (Val.str newStatus)) (hca : t.createdAt ≠ none)
    (htarget : getBucket tasks newStatus = some target) :
    keys (handleTaskMove tasks filters taskId newStatus clock).1 = keys tasks ∧
    (∀ key us, getBucket tasks key = some us →
      getBucket (handleTaskMove tasks filters taskId newStatus clock).1 key =
        some (us.filter (fun u => u != t) ++
          (if key = newStatus then [{ t with status := some (Val.str newStatus) }] else []))) ∧
    (allTasks (handleTaskMove tasks filters taskId newStatus clock).1).filter
        (fun u => u.id == some taskId) = [{ t with status := some (Val.str newStatus) }] ∧
    (∀ key us, getBucket (handleTaskMove tasks filters taskId newStatus clock).1 key = some us →
      ({ t with status := some (Val.str newStatus) } ∈ us ↔ key = newStatus)) := by
  have htall : t ∈ allTasks tasks := by
    have : t ∈ (allTasks tasks).filter (fun u => u.id == some taskId) := by
      rw [honly]; exact List.mem_singleton_self t
    exact (List.mem_filter.mp this).1
  have hid : t.id = some taskId := by
    have : t ∈ (allTasks tasks).filter (fun u => u.id == some taskId) := by
      rw [honly]; exact List.mem_singleton_self t
    simpa using (List.mem_filter.mp this).2
  have honly1 : ∀ u ∈ allTasks tasks, u.id = some taskId → u = t := by
    intro u hu hue
    have : u ∈ (allTasks tasks).filter (fun u => u.id == some taskId) :=
      List.mem_filter.mpr ⟨hu, by simp [hue]⟩
    rw [honly] at this
    exact List.mem_singleton.mp this
  have hget := getTaskById_of_only tasks taskId t honly1 htall hid
  obtain ⟨bucket, hbucket⟩ := getBucket_of_mem_keys tasks (toKey t.status) hstatus
  have hfilter : ∀ key us, getBucket tasks key = some us →
      us.filter (fun task => task.id != some taskId) = us.filter (fun u => u != t) := by
    intro key us hg
    apply List.filter_congr
    intro u hu
    by_cases hue : u.id = some taskId
    · have := honly1 u (mem_allTasks_of_getBucket tasks key us u hg hu) hue
      simp [this, hid]
    · have hut : u ≠ t := fun h => hue (h ▸ hid)
      have h1 : (u.id != some taskId) = true := by simpa using hue
      have h2 : (u != t) = true := by simpa using hut
      rw [h1, h2]
  -- the collection after `removeTask`
  have hrem : ∀ key us, getBucket tasks key = some us →
      getBucket (removeTask tasks taskId).1 key = some (us.filter (fun u => u != t)) := by
    intro key us hg
    rw [getBucket_removeTask, hg, Option.map_some', hfilter key us hg]
  have hrem_target := hrem newStatus target htarget
  obtain ⟨w, hw⟩ := Option.ne_none_iff_exists'.mp hca
  have hnewtask := newTaskOf_stamped t newStatus clock taskId w hid hw
  have hmove : (handleTaskMove tasks filters taskId newStatus clock).1 =
      setBucket (removeTask tasks taskId).1 newStatus
        (target.filter (fun u => u != t) ++ [{ t with status := some (Val.str newStatus) }]) := by
    rw [handleTaskMove_moves tasks filters taskId newStatus clock t bucket hget hcur hbucket,
      addTask_present _ _ _ _ _ hrem_target, hnewtask]
  have hmoved_id : ({ t with status := some (Val.str newStatus) } : Task).id = some taskId := hid
  rw [hmove]
  refine ⟨?_, ?_, ?_, ?_⟩
  · rw [keys_setBucket]; exact keys_map tasks _
  · intro key us hg
    by_cases hk : key = newStatus
    · subst hk
      rw [htarget] at hg
      simp only [Option.some.injEq] at hg
      subst hg
      rw [getBucket_setBucket_same _ _ _ _ hrem_target, if_pos rfl]
    · rw [getBucket_setBucket_other _ _ _ _ hk, hrem key us hg, if_neg hk, List.append_nil]
  · have hperm := allTasks_setBucket_perm (removeTask tasks taskId).1 newStatus
      (target.filter (fun u => u != t)) { t with status := some (Val.str newStatus) } hrem_target
    have hp2 := hperm.filter (fun u => u.id == some taskId)
    have hnone : (allTasks (removeTask tasks taskId).1).filter (fun u => u.id == some taskId) = [] := by
      rw [List.filter_eq_nil_iff]
      intro u hu
      rw [allTasks_removeTask] at hu
      simpa using (List.mem_filter.mp hu).2
    rw [List.filter_cons, hnone] at hp2
    have hbeq : (t.id == some taskId) = true := by simp [hid]
    rw [if_pos hbeq] at hp2
    exact List.perm_singleton.mp hp2
  · intro key us hg
    constructor
    · intro hmem
      by_contra hk
      rw [getBucket_setBucket_other _ _ _ _ hk, getBucket_removeTask] at hg
      cases hg2 : getBucket tasks key with
      | none => simp [hg2] at hg
      | some vs =>
        simp only [hg2, Option.map_some', Option.some.injEq] at hg
        rw [← hg] at hmem
        have := (List.mem_filter.mp hmem).2
        simp [hid] at this
    · intro hk
      subst hk
      rw [getBucket_setBucket_same _ _ _ _ hrem_target] at hg
      simp only [Option.some.injEq] at hg
      rw [← hg]
      simp

/-- C8 (as stated, refuted): with two tasks of id 1 in todo, the move of id 1
to done drops the second of them from the board; a task whose status names no
bucket is dropped by its own move; and a task stored without createdAt comes
out of its move with the createdAt of the clock. -/
theorem handleTaskMove_loses_tasks :
    (keys sharedIdBoard = statusKeys ∧ taskA ∈ allTasks sharedIdBoard ∧
      taskA2 ∈ allTasks sharedIdBoard ∧ taskA2 ≠ taskA ∧
      (handleTaskMove sharedIdBoard ⟨"", "all", "all"⟩ (Val.num 1) "done" ⟨9, "z"⟩).1 =
        [("todo", []), ("inprogress", []),
         ("done", [{ taskA with status := some (Val.str "done") }])]) ∧
    (keys [("todo", [{ taskA with status := some (Val.str "archived") }]),
           ("inprogress", []), ("done", [])] = statusKeys ∧
      (handleTaskMove [("todo", [{ taskA with status := some (Val.str "archived") }]),
           ("inprogress", []), ("done", [])] ⟨"", "all", "all"⟩ (Val.num 1) "done" ⟨9, "z"⟩).1 =
        emptyBoard) ∧
    (handleTaskMove [("todo", [{ taskA with createdAt := none }]), ("inprogress", []),
          ("done", [])] ⟨"", "all", "all"⟩ (Val.num 1) "done" ⟨9, "z"⟩).1 =
      [("todo", []), ("inprogress", []),
       ("done", [{ taskA with createdAt := some (Val.str "z"),
                              status := some (Val.str "done") }])] := by
  decide

/-- C8 (amended): in a three-bucket collection let `t` be the one stored task
with the id, its status naming one of the buckets (the one that holds it or
another) and `t` carrying a createdAt. A move to one of the three statuses
other than the status of `t` keeps the bucket keys; every bucket keeps its
tasks other than `t`, in their order, and the target bucket has in addition,
as its last element, `t` with its status replaced and every other property as
it was. The moved task is the one stored task with the id and is in the target
bucket and in no other. -/
theorem handleTaskMove_spec [Engine] (tasks : Collection) (filters : FilterSet) (taskId : Val)
    (newStatus : String) (clock : Clock) (t : Task)
    (hkeys : List.Perm (keys tasks) statusKeys)
    (honly : (allTasks tasks).filter (fun u => u.id == some taskId) = [t])
    (hstatus : toKey t.status ∈ keys tasks) (hca : t.createdAt ≠ none)
    (hnew : newStatus ∈ statusKeys) (hcur : t.status ≠ some (Val.str newStatus)) :
    keys (handleTaskMove tasks filters taskId newStatus clock).1 = keys tasks ∧
    (∀ key us, getBucket tasks key = some us →
      getBucket (handleTaskMove tasks filters taskId newStatus clock).1 key =
        some (us.filter (fun u => u != t) ++
          (if key = newStatus then [{ t with status := some (Val.str newStatus) }] else []))) ∧
    (∀ key us, getBucket tasks key = some us → key ≠ newStatus → t ∉ us →
      getBucket (handleTaskMove tasks filters taskId newStatus clock).1 key = some us) ∧
    (∃ others, getBucket (handleTaskMove tasks filters taskId newStatus clock).1 newStatus =
      some (others ++ [{ t with status := some (Val.str newStatus) }])) ∧
    (allTasks (handleTaskMove tasks filters taskId newStatus clock).1).filter
        (fun u => u.id == some taskId) = [{ t with status := some (Val.str newStatus) }] ∧
    (∀ key us,
      getBucket (handleTaskMove tasks filters taskId newStatus clock).1 key = some us →
      ({ t with status := some (Val.str newStatus) } ∈ us ↔ key = newStatus)) := by
  obtain ⟨target, htarget⟩ := getBucket_of_mem_keys tasks newStatus (hkeys.mem_iff.mpr hnew)
  obtain ⟨h1, h2, h3, h4⟩ := handleTaskMove_moved tasks filters taskId newStatus clock t target
    honly hstatus hcur hca htarget
  refine ⟨h1, h2, fun key us hg hk hmem => ?_, ?_, h3, h4⟩
  · rw [h2 key us hg, if_neg hk, List.append_nil]
    congr 1
    rw [List.filter_eq_self]
    intro u hu
    have : u ≠ t := fun h => hmem (h ▸ hu)
    simpa using this
  · exact ⟨target.filter (fun u => u != t), by rw [h2 newStatus target htarget, if_pos rfl]⟩

/-- C8 (amended) at a board on which "Write spec" (id 1) sits in todo with the
status "inprogress": moved to done it lands behind "Read", and "Buy milk"
stays alone in todo. -/
theorem handleTaskMove_spec_witness :
    List.Perm (keys driftedBoard) statusKeys ∧
    (allTasks driftedBoard).filter (fun u => u.id == some (Val.num 1)) = [taskADrifted] ∧
    toKey taskADrifted.status ∈ keys driftedBoard ∧
    taskADrifted.createdAt ≠ none ∧ "done" ∈ statusKeys ∧
    taskADrifted.status ≠ some (Val.str "done") ∧
    getBucket (handleTaskMove driftedBoard ⟨"", "all", "all"⟩ (Val.num 1) "done" ⟨9, "z"⟩).1
        "done" = some [taskC, { taskADrifted with status := some (Val.str "done") }] ∧
    getBucket (handleTaskMove driftedBoard ⟨"", "all", "all"⟩ (Val.num 1) "done" ⟨9, "z"⟩).1
        "todo" = some [taskB] ∧
    keys (handleTaskMove driftedBoard ⟨"", "all", "all"⟩ (Val.num 1) "done" ⟨9, "z"⟩).1 =
      keys driftedBoard ∧
    (allTasks (handleTaskMove driftedBoard ⟨"", "all", "all"⟩ (Val.num 1) "done"
        ⟨9, "z"⟩).1).filter (fun u => u.id == some (Val.num 1)) =
      [{ taskADrifted with status := some (Val.str "done") }] :=
  ⟨List.Perm.refl _, by decide, by decide, by decide, by decide, by decide, by decide,
    by decide,
    (handleTaskMove_spec driftedBoard ⟨"", "all", "all"⟩ (Val.num 1) "done" ⟨9, "z"⟩
      taskADrifted (List.Perm.refl _) (by decide) (by decide) (by decide) (by decide)
      (by decide)).1,
    (handleTaskMove_spec driftedBoard ⟨"", "all", "all"⟩ (Val.num 1) "done" ⟨9, "z"⟩
      taskADrifted (List.Perm.refl _) (by decide) (by decide) (by decide) (by decide)
      (by decide)).2.2.2.2.1⟩

/-! ## C15: escapeHtml -/

theorem escapeHtml_data (s : String) : (escapeHtml s).data = s.data.flatMap escapeOne := by
  simp only [escapeHtml, replaceAll, List.flatMap_assoc]
  congr 1
  funext c
  by_cases h1 : c = amp
  · subst h1; decide
  by_cases h2 : c = ltChar
  · subst h2; decide
  by_cases h3 : c = gtChar
  · subst h3; decide
  by_cases h4 : c = quote
  · subst h4; decide
  by_cases h5 : c = apostrophe
  · subst h5; decide
  simp [escapeOne, h1, h2, h3, h4, h5]

theorem escapeOne_clean (c x : Char) (hx : x ∈ escapeOne c) :
    x ≠ ltChar ∧ x ≠ gtChar ∧ x ≠ quote ∧ x ≠ apostrophe := by
  unfold escapeOne at hx
  split_ifs at hx with h1 h2 h3 h4 h5
  · revert x; decide
  · revert x; decide
  · revert x; decide
  · revert x; decide
  · revert x; decide
  · simp only [List.mem_singleton] at hx
    subst hx
    exact ⟨h2, h3, h4, h5⟩

theorem ampStartsEntity_nil : AmpStartsEntity [] := by
  intro pre post h
  simp at h

theorem ampStartsEntity_cons (c : Char) (out : List Char) (hc : c ≠ amp)
    (h : AmpStartsEntity out) : AmpStartsEntity (c :: out) := by
  intro pre post hsplit
  cases pre with
  | nil =>
    simp only [List.nil_append, List.cons.injEq] at hsplit
    exact absurd hsplit.1 hc
  | cons a pre1 =>
    simp only [List.cons_append, List.cons.injEq] at hsplit
    exact h pre1 post hsplit.2

theorem ampStartsEntity_entity (e : String) (he : e ∈ entities) (out : List Char)
    (h : AmpStartsEntity out) : AmpStartsEntity (e.data ++ out) := by
  have hhead : e.data = amp :: e.data.tail ∧ ∀ x ∈ e.data.tail, x ≠ amp := by
    revert e; decide
  obtain ⟨htail, hno⟩ := hhead
  generalize e.data.tail = tail at htail hno
  rw [htail]
  intro pre post hsplit
  cases pre with
  | nil =>
    simp only [List.nil_append, List.cons_append, List.cons.injEq, true_and] at hsplit
    refine ⟨e, he, ?_⟩
    rw [htail, ← hsplit]
    exact List.prefix_append _ _
  | cons a pre1 =>
    simp only [List.cons_append, List.cons.injEq] at hsplit
    have hrest : AmpStartsEntity (tail ++ out) := by
      clear hsplit htail
      induction tail with
      | nil => simpa using h
      | cons x xs ih =>
        exact ampStartsEntity_cons x _ (hno x (List.mem_cons_self _ _))
          (ih (fun y hy => hno y (List.mem_cons_of_mem _ hy)))
    exact hrest pre1 post hsplit.2

theorem ampStartsEntity_flatMap (l : List Char) : AmpStartsEntity (l.flatMap escapeOne) := by
  induction l with
  | nil => exact ampStartsEntity_nil
  | cons c rest ih =>
    rw [List.flatMap_cons]
    unfold escapeOne
    split_ifs with h1 h2 h3 h4 h5
    · exact ampStartsEntity_entity "&amp;" (by decide) _ ih
    · exact ampStartsEntity_entity "&lt;" (by decide) _ ih
    · exact ampStartsEntity_entity "&gt;" (by decide) _ ih
    · exact ampStartsEntity_entity "&quot;" (by decide) _ ih
    · exact ampStartsEntity_entity "&#039;" (by decide) _ ih
    · exact ampStartsEntity_cons c _ h1 ih

theorem flatMap_escapeOne_plain (l : List Char)
    (h : ∀ c ∈ l, c ∉ [amp, ltChar, gtChar, quote, apostrophe]) :
    l.flatMap escapeOne = l := by
  induction l with
  | nil => rfl
  | cons c rest ih =>
    have hc := h c (List.mem_cons_self _ _)
    simp only [List.mem_cons, List.mem_singleton, List.not_mem_nil, or_false, not_or] at hc
    rw [List.flatMap_cons, ih (fun x hx => h x (List.mem_cons_of_mem _ hx))]
    simp [escapeOne, hc.1, hc.2.1, hc.2.2.1, hc.2.2.2.1, hc.2.2.2.2]

/-- C15: for every input string the output of `escapeHtml` holds none of the
characters `<`, `>`, double quote and single quote, every `&` in it is the
first character of one of the five entities, and an input without any of the
five special characters comes out as it went in. -/
theorem escapeHtml_spec (s : String) :
    (∀ x ∈ (escapeHtml s).data,
      x ≠ ltChar ∧ x ≠ gtChar ∧ x ≠ quote ∧ x ≠ apostrophe) ∧
    (∀ pre post, (escapeHtml s).data = pre ++ amp :: post →
      ∃ e ∈ entities, e.data <+: amp :: post) ∧
    ((∀ c ∈ s.data, c ∉ [amp, ltChar, gtChar, quote, apostrophe]) → escapeHtml s = s) := by
  refine ⟨?_, ?_, ?_⟩
  · intro x hx
    rw [escapeHtml_data] at hx
    obtain ⟨c, _, hxc⟩ := List.mem_flatMap.mp hx
    exact escapeOne_clean c x hxc
  · rw [escapeHtml_data]
    exact ampStartsEntity_flatMap s.data
  · intro h
    have := flatMap_escapeOne_plain s.data h
    rw [← escapeHtml_data] at this
    exact String.ext this

/-- C15 at two inputs: "Write spec" has no special character and comes out
unchanged, and the markup of a script tag comes out as entities. -/
theorem escapeHtml_spec_witness :
    (∀ c ∈ "Write spec".data, c ∉ [amp, ltChar, gtChar, quote, apostrophe]) ∧
    escapeHtml "Write spec" = "Write spec" ∧
    escapeHtml "<b>Tom & Jerry</b>" = "&lt;b&gt;Tom &amp; Jerry&lt;/b&gt;" :=
  ⟨by decide, (escapeHtml_spec "Write spec").2.2 (by decide), by decide⟩

/-! ## C14: the form validation -/

theorem truthy_formValue (x : Option String) : truthy (formValue x) = presentNonEmpty x := by
  cases x <;> rfl

theorem validateFormData_form (validDate : Val → Bool) (form : FormInput) :
    validateFormData validDate form.toFields.toTask = satisfiesFormRule validDate form := by
  obtain ⟨title, description, priority, label, dueDate⟩ := form
  simp only [validateFormData, FormInput.toFields, Fields.toTask, truthy_formValue,
    satisfiesFormRule]
  cases presentNonEmpty title <;> cases presentNonEmpty description <;>
    cases presentNonEmpty priority <;> cases presentNonEmpty label <;>
    cases dueDate with
    | none => simp [formValue, truthy]
    | some d =>
      by_cases hd : d = ""
      · simp [formValue, truthy, hd]
      · cases hv : validDate (Val.str d) <;> simp [formValue, truthy, hd, hv]

/-- C14: for every form record, `validateFormData` returns true exactly when
title, description, priority and label are present and non-empty and the due
date is absent, empty or accepted by the date parser; `getFormData` yields the
record exactly then and `null` otherwise, and `handleFormSubmit` dispatches
`task-submit` with the record exactly then and shows an error otherwise. -/
theorem validateFormData_spec (validDate : Val → Bool) (form : FormInput) :
    (validateFormData validDate form.toFields.toTask = true ↔
      (∃ t, form.title = some t ∧ t ≠ "") ∧ (∃ d, form.description = some d ∧ d ≠ "") ∧
      (∃ p, form.priority = some p ∧ p ≠ "") ∧ (∃ l, form.label = some l ∧ l ≠ "") ∧
      (form.dueDate = none ∨ form.dueDate = some "" ∨
        ∃ d, form.dueDate = some d ∧ validDate (Val.str d) = true)) ∧
    getFormData validDate form =
      (if satisfiesFormRule validDate form then some form.toFields else none) ∧
    handleFormSubmit validDate form =
      (if satisfiesFormRule validDate form then SubmitOutcome.dispatched form.toFields
       else SubmitOutcome.errorShown "Please fill all required fields") ∧
    (satisfiesFormRule validDate form = true → missingRequired form.toFields.toTask = false) := by
  refine ⟨?_, ?_, ?_, ?_⟩
  · rw [validateFormData_form]
    obtain ⟨title, description, priority, label, dueDate⟩ := form
    cases title <;> cases description <;> cases priority <;> cases label <;> cases dueDate <;>
      simp [satisfiesFormRule, presentNonEmpty, and_assoc]
  · simp [getFormData, validateFormData_form]
  · simp only [handleFormSubmit, getFormData, validateFormData_form]
    cases satisfiesFormRule validDate form <;> rfl
  · obtain ⟨title, description, priority, label, dueDate⟩ := form
    simp only [satisfiesFormRule, Bool.and_eq_true, missingRequired, FormInput.toFields,
      Fields.toTask, truthy_formValue]
    rintro ⟨⟨⟨⟨h1, h2⟩, h3⟩, h4⟩, _⟩
    simp [h1, h2, h3, h4]

/-- C14 at a filled form, which is dispatched, and at a form with an empty
title, which is not. -/
theorem validateFormData_spec_witness :
    satisfiesFormRule tenCharDate filledForm = true ∧
    missingRequired filledForm.toFields.toTask = false ∧
    handleFormSubmit tenCharDate filledForm = SubmitOutcome.dispatched filledForm.toFields ∧
    getFormData tenCharDate untitledForm = none :=
  ⟨by decide, (validateFormData_spec tenCharDate filledForm).2.2.2 (by decide), by decide,
    by decide⟩

/-! ## C11: the search predicate -/

theorem includes_empty (s : String) : includes s "" = true := by
  unfold includes
  rw [List.any_eq_true]
  exact ⟨s.data, (List.mem_tails _ _).mpr (List.suffix_refl _), by simp⟩

theorem matchesSearch_eq [Engine] (filters : FilterSet) (t : Task) :
    matchesSearch filters t =
      if searchEvaluable filters.search t then some (passesSearch filters t) else none := by
  obtain ⟨id, createdAt, status, title, description, priority, label, dueDate⟩ := t
  have e1 : (filters.search = "") ↔ ((filters.search == "") = true) := by simp
  simp only [matchesSearch, passesSearch, searchEvaluable, e1]
  cases (filters.search == "") <;>
    rcases title with _ | _ | _ | a <;> rcases description with _ | _ | _ | b <;>
    simp [lowerOf, textOf, isStr] <;>
    cases includes (toLowerCase a) filters.search <;> simp

theorem passesSearch_onSearchInput [Engine] (hempty : toLowerCase "" = "")
    (filters : FilterSet) (s : String) (t : Task) :
    passesSearch (onSearchInput filters s) t = searchSpec s t := by
  simp only [passesSearch, onSearchInput, searchSpec]
  by_cases hs : s = ""
  · subst hs
    rw [hempty]
  · have h1 : (s == "") = false := beq_eq_false_iff_ne.mpr hs
    by_cases hl : toLowerCase s = ""
    · rw [hl, h1, includes_empty]
      rfl
    · have h2 : (toLowerCase s == "") = false := beq_eq_false_iff_ne.mpr hl
      rw [h1, h2]

/-- C11 (as stated, refuted): with the search "SPEC" held in the filter set as
it is, the predicate of `filterTasks` does not pass the task titled
"Write spec", which the lower-cased search would match; and on a task without
title the predicate throws. -/
theorem held_search_is_case_sensitive :
    matchesSearch ⟨"SPEC", "all", "all"⟩ taskA = some false ∧
    searchSpec "SPEC" taskA = true ∧
    matchesSearch ⟨"spec", "all", "all"⟩ untitledTask = none := by
  decide

/-- C11 (amended): the search box stores the typed text lower-cased, and
`filterTasks` compares the stored text as it is. For every `toLowerCase` that
keeps the empty string empty, every task and every typed search `s` of any
letter case, the predicate can be evaluated exactly when the lower-cased `s`
is empty or the title is a string and so is the description unless the title
matches; it then passes the task exactly when `s` is empty or the lower-cased
`s` occurs in the lower-cased title or in the lower-cased description. The
same holds for a held search that is lower-case already, and the reset filter
passes every task. -/
theorem search_predicate_spec [Engine] (hempty : toLowerCase "" = "")
    (filters : FilterSet) (s : String) (t : Task) :
    matchesSearch (onSearchInput filters s) t =
      (if searchEvaluable (toLowerCase s) t then some (searchSpec s t) else none) ∧
    (isStr t.title = true → isStr t.description = true →
      matchesSearch (onSearchInput filters s) t = some (searchSpec s t)) ∧
    (toLowerCase s = s → isStr t.title = true → isStr t.description = true →
      matchesSearch { filters with search := s } t = some (searchSpec s t)) ∧
    matchesSearch resetFilters t = some true := by
  have hmain : matchesSearch (onSearchInput filters s) t =
      (if searchEvaluable (toLowerCase s) t then some (searchSpec s t) else none) := by
    rw [matchesSearch_eq, passesSearch_onSearchInput hempty]
    rfl
  have htext : isStr t.title = true → isStr t.description = true →
      matchesSearch (onSearchInput filters s) t = some (searchSpec s t) := by
    intro h1 h2
    rw [hmain]
    simp [searchEvaluable, h1, h2]
  refine ⟨hmain, htext, ?_, ?_⟩
  · intro hlow h1 h2
    have := htext h1 h2
    simpa [onSearchInput, hlow] using this
  · simp [matchesSearch, resetFilters]

/-- C11 (amended) at the task titled "Write spec": the typed search "SPEC" is
stored as "spec" and passes it; the held search "spec" does the same. -/
theorem search_predicate_spec_witness :
    toLowerCase "" = "" ∧
    isStr taskA.title = true ∧ isStr taskA.description = true ∧
    toLowerCase "spec" = "spec" ∧
    searchSpec "SPEC" taskA = true ∧
    matchesSearch (onSearchInput ⟨"", "all", "all"⟩ "SPEC") taskA = some (searchSpec "SPEC" taskA) ∧
    matchesSearch ⟨"spec", "all", "all"⟩ taskA = some (searchSpec "spec" taskA) :=
  ⟨by decide, by decide, by decide, by decide, by decide,
    (search_predicate_spec (by decide) ⟨"", "all", "all"⟩ "SPEC" taskA).2.1 (by decide) (by decide),
    (search_predicate_spec (by decide) ⟨"spec", "all", "all"⟩ "spec" taskA).2.2.1 (by decide)
      (by decide) (by decide)⟩

/-! ## C13: the round trip through storage -/

theorem digitValue_digitChar (d : Nat) (h : d < 10) : digitValue (digitChar d) = some d := by
  interval_cases d <;> rfl

theorem hexValue_hexChar (d : Nat) (h : d < 16) : hexValue (hexChar d) = some d := by
  interval_cases d <;> rfl

theorem parseDigits_stop (rest : List Char) (acc : Nat)
    (h : ∀ c ∈ rest.head?, digitValue c = none) : parseDigits rest acc = (acc, rest) := by
  cases rest with
  | nil => rfl
  | cons c tail =>
    have hc : digitValue c = none := h c (by simp)
    simp [parseDigits, hc]

theorem parseDigits_natDigits (fuel n acc : Nat) (tail : List Char) (h : n < fuel) :
    parseDigits (natDigits fuel n ++ tail) acc =
      parseDigits tail (acc * 10 ^ (natDigits fuel n).length + n) := by
  induction fuel generalizing n acc tail with
  | zero => omega
  | succ f ih =>
    by_cases hn : n < 10
    · simp [natDigits, hn, parseDigits, digitValue_digitChar n hn]
    · have hlt : n / 10 < f := by omega
      have hmod : n % 10 < 10 := Nat.mod_lt _ (by omega)
      simp only [natDigits, hn, if_false, List.append_assoc, List.singleton_append,
        ih (n / 10) acc _ hlt, parseDigits, digitValue_digitChar _ hmod,
        List.length_append, List.length_singleton, pow_succ]
      congr 1
      have := Nat.div_add_mod n 10
      ring_nf
      omega

theorem natDigits_head (fuel n : Nat) (h : n < fuel) (hpos : 1 ≤ n) :
    ∃ d ds, 1 ≤ d ∧ d < 10 ∧ natDigits fuel n = digitChar d :: ds := by
  induction fuel generalizing n with
  | zero => omega
  | succ f ih =>
    by_cases hn : n < 10
    · exact ⟨n, [], hpos, hn, by simp [natDigits, hn]⟩
    · obtain ⟨d, ds, h1, h2, h3⟩ := ih (n / 10) (by omega) (by omega)
      exact ⟨d, ds ++ [digitChar (n % 10)], h1, h2, by simp [natDigits, hn, h3]⟩

theorem parseNat_renderNat (n : Nat) (rest : List Char)
    (h : ∀ c ∈ rest.head?, digitValue c = none) :
    parseNat (renderNat n ++ rest) = some (n, rest) := by
  by_cases hn : n = 0
  · subst hn
    cases rest with
    | nil => rfl
    | cons c tail =>
      have hc : digitValue c = none := h c (by simp)
      simp [renderNat, natDigits, parseNat, digitValue_digitChar, hc]
  · obtain ⟨d, ds, h1, h2, h3⟩ := natDigits_head (n + 1) n (by omega) (by omega)
    have hA := parseDigits_natDigits (n + 1) n 0 rest (by omega)
    rw [h3] at hA
    simp only [List.cons_append, parseDigits, digitValue_digitChar d h2, Nat.zero_mul,
      Nat.zero_add] at hA
    have hd0 : d ≠ 0 := by omega
    have hA2 : parseDigits (ds ++ rest) d = (n, rest) := by
      rw [← parseDigits_stop rest n h]
      exact hA
    simp only [renderNat, h3, List.cons_append, parseNat, digitValue_digitChar d h2, hd0,
      if_false, hA2]

theorem parseChars_quote (rest : List Char) : parseChars (quote :: rest) = some ([], rest) := by
  rw [parseChars.eq_def]
  simp

theorem parseChars_plain (c : Char) (rest : List Char) (hq : c ≠ quote) (hb : c ≠ backslash)
    (hc : ¬ c.toNat < 32) :
    parseChars (c :: rest) = (parseChars rest).map (fun r => (c :: r.1, r.2)) := by
  conv_lhs => rw [parseChars.eq_def]
  simp [hq, hb, hc]

theorem parseChars_escape (e x : Char) (rest : List Char) (he : e ≠ 'u')
    (hx : unescape e = some x) :
    parseChars (backslash :: e :: rest) = (parseChars rest).map (fun r => (x :: r.1, r.2)) := by
  have h1 : backslash ≠ quote := by decide
  conv_lhs => rw [parseChars.eq_def]
  simp [h1, he, hx]

theorem parseChars_hex (h3 h4 : Char) (a b : Nat) (rest : List Char)
    (ha : hexValue h3 = some a) (hb : hexValue h4 = some b) :
    parseChars (backslash :: 'u' :: '0' :: '0' :: h3 :: h4 :: rest) =
      (parseChars rest).map (fun r => (Char.ofNat (a * 16 + b) :: r.1, r.2)) := by
  have h1 : backslash ≠ quote := by decide
  have h0 : hexValue '0' = some 0 := by decide
  conv_lhs => rw [parseChars.eq_def]
  simp [h1, h0, ha, hb]

theorem parseChars_escapeChar (c : Char) (rest : List Char) :
    parseChars (escapeChar c ++ rest) = (parseChars rest).map (fun r => (c :: r.1, r.2)) := by
  unfold escapeChar
  split_ifs with h1 h2 h3 h4 h5 h6 h7 h8
  · subst h1
    exact parseChars_escape quote quote rest (by decide) (by decide)
  · subst h2
    exact parseChars_escape backslash backslash rest (by decide) (by decide)
  · subst h3
    exact parseChars_escape 'b' _ rest (by decide) (by decide)
  · subst h4
    exact parseChars_escape 'f' _ rest (by decide) (by decide)
  · subst h5
    exact parseChars_escape 'n' _ rest (by decide) (by decide)
  · subst h6
    exact parseChars_escape 'r' _ rest (by decide) (by decide)
  · subst h7
    exact parseChars_escape 't' _ rest (by decide) (by decide)
  · have hdiv : c.toNat / 16 < 16 := by omega
    have hmod : c.toNat % 16 < 16 := Nat.mod_lt _ (by omega)
    have := parseChars_hex (hexChar (c.toNat / 16)) (hexChar (c.toNat % 16)) _ _ rest
      (hexValue_hexChar _ hdiv) (hexValue_hexChar _ hmod)
    simp only [List.cons_append, List.nil_append]
    rw [this, Nat.div_add_mod' c.toNat 16, Char.ofNat_toNat]
  · exact parseChars_plain c rest h1 h2 h8

theorem parseChars_flatMap (s : List Char) (rest : List Char) :
    parseChars (s.flatMap escapeChar ++ quote :: rest) = some (s, rest) := by
  induction s with
  | nil => exact parseChars_quote rest
  | cons c tail ih =>
    rw [List.flatMap_cons, List.append_assoc, parseChars_escapeChar, ih]
    rfl

theorem parseString_renderString (s : String) (rest : List Char) :
    parseString (renderString s ++ rest) = some (s, rest) := by
  simp [renderString, parseString, parseChars_flatMap]

theorem renderNat_head (n : Nat) : ∃ d ds, d < 10 ∧ renderNat n = digitChar d :: ds := by
  by_cases hn : n = 0
  · subst hn
    exact ⟨0, [], by omega, rfl⟩
  · obtain ⟨d, ds, _, h2, h3⟩ := natDigits_head (n + 1) n (by omega) (by omega)
    exact ⟨d, ds, h2, h3⟩

theorem digitChar_plain (d : Nat) (h : d < 10) :
    digitChar d ≠ quote ∧ digitChar d ≠ minus ∧ digitChar d ≠ 'n' := by
  interval_cases d <;> decide

theorem parseVal_renderVal (v : Val) (rest : List Char)
    (h : ∀ c ∈ rest.head?, digitValue c = none) :
    parseVal (renderVal v ++ rest) = some (v, rest) := by
  cases v with
  | null =>
    have h1 : ('n' : Char) ≠ quote := by decide
    have h2 : ('n' : Char) ≠ minus := by decide
    simp [renderVal, parseVal, h1, h2]
  | num n =>
    by_cases hn : n < 0
    · have h1 : minus ≠ quote := by decide
      have hneg : -((n.natAbs : Nat) : Int) = n := by omega
      simp only [renderVal, renderInt, hn, if_true, List.cons_append, parseVal, h1, if_false,
        parseNat_renderNat _ rest h, Option.map_some', hneg]
    · obtain ⟨d, ds, hd, hds⟩ := renderNat_head n.natAbs
      obtain ⟨h1, h2, h3⟩ := digitChar_plain d hd
      have hpos : ((n.natAbs : Nat) : Int) = n := by omega
      have hp := parseNat_renderNat n.natAbs rest h
      rw [hds] at hp
      simp only [renderVal, renderInt, hn, if_false, hds, List.cons_append, parseVal, h1, h2,
        h3]
      simp only [List.cons_append] at hp
      rw [hp]
      simp [hpos]
  | str s =>
    simp [renderVal, renderString, parseVal, parseChars_flatMap]

theorem renderItems_cons_cons {α : Type} (render : α → List Char) (x y : α) (rest : List α) :
    renderItems render (x :: y :: rest) =
      render x ++ comma :: renderItems render (y :: rest) := rfl

theorem parseItems_renderItems {α : Type} (item : List Char → Option (α × List Char))
    (render : α → List Char) (closing : Char) (hcc : closing ≠ comma) (xs : List α)
    (hne : xs ≠ [])
    (hitem : ∀ x ∈ xs, ∀ c tail, (c = comma ∨ c = closing) →
      item (render x ++ c :: tail) = some (x, c :: tail))
    (fuel : Nat) (hfuel : xs.length ≤ fuel) (tail : List Char) :
    parseItems item closing fuel (renderItems render xs ++ closing :: tail) =
      some (xs, tail) := by
  induction xs generalizing fuel with
  | nil => exact absurd rfl hne
  | cons x rest ih =>
    cases fuel with
    | zero => simp at hfuel
    | succ f =>
      cases rest with
      | nil =>
        have hx := hitem x (List.mem_cons_self _ _) closing tail (Or.inr rfl)
        simp [renderItems, parseItems, hx, hcc]
      | cons y rest2 =>
        have hx := hitem x (List.mem_cons_self _ _) comma
          (renderItems render (y :: rest2) ++ closing :: tail) (Or.inl rfl)
        have hrec := ih (by simp) (fun z hz => hitem z (List.mem_cons_of_mem _ hz)) f
          (by simp only [List.length_cons] at hfuel ⊢; omega)
        rw [renderItems_cons_cons]
        simp only [List.append_assoc, List.cons_append, parseItems]
        rw [hx]
        simp [hrec]

theorem renderItems_length {α : Type} (render : α → List Char) (xs : List α)
    (hne : ∀ x ∈ xs, render x ≠ []) : xs.length ≤ (renderItems render xs).length + 1 := by
  induction xs with
  | nil => simp
  | cons x rest ih =>
    cases rest with
    | nil => simp
    | cons y rest2 =>
      have := ih (fun z hz => hne z (List.mem_cons_of_mem _ hz))
      rw [renderItems_cons_cons]
      simp only [List.length_cons, List.length_append] at this ⊢
      omega

theorem parseList_renderList {α : Type} (item : List Char → Option (α × List Char))
    (render : α → List Char) (opening closing : Char) (hcc : closing ≠ comma) (xs : List α)
    (hitem : ∀ x ∈ xs, ∀ c tail, (c = comma ∨ c = closing) →
      item (render x ++ c :: tail) = some (x, c :: tail))
    (hhead : ∀ x ∈ xs, ∃ h t, render x = h :: t ∧ h ≠ closing) (tail : List Char) :
    parseList item opening closing (renderList render opening closing xs ++ tail) =
      some (xs, tail) := by
  cases xs with
  | nil => simp [renderList, renderItems, parseList]
  | cons x rest =>
    obtain ⟨h, t, hrender, hh⟩ := hhead x (List.mem_cons_self _ _)
    have hlen := renderItems_length render (x :: rest) (fun z hz => by
      obtain ⟨h', t', hr, _⟩ := hhead z hz
      rw [hr]; simp)
    have hstart : ∃ t2, renderItems render (x :: rest) = h :: t2 := by
      cases rest with
      | nil => exact ⟨t, hrender⟩
      | cons y rest2 =>
        rw [renderItems_cons_cons, hrender]
        exact ⟨_, rfl⟩
    obtain ⟨t2, ht2⟩ := hstart
    have hmain := parseItems_renderItems item render closing hcc (x :: rest) (by simp) hitem
      ((renderItems render (x :: rest) ++ closing :: tail).length)
      (by simp only [List.length_append, List.length_cons] at hlen ⊢; omega) tail
    simp only [renderList, List.cons_append, List.append_assoc, List.singleton_append,
      parseList, if_true]
    rw [ht2] at hmain ⊢
    simp only [List.cons_append, hh, if_false]
    exact hmain

theorem digitValue_separator (c : Char)
    (h : c = comma ∨ c = rbrace ∨ c = rbracket) : digitValue c = none := by
  rcases h with rfl | rfl | rfl <;> decide

theorem renderString_head (s : String) : ∃ t, renderString s = quote :: t :=
  ⟨_, rfl⟩

theorem parsePair_renderPair (p : String × Val) (c : Char) (tail : List Char)
    (hc : c = comma ∨ c = rbrace) :
    parsePair (renderPair p ++ c :: tail) = some (p, c :: tail) := by
  have hdc : digitValue c = none := digitValue_separator c (by tauto)
  have hd : ∀ x ∈ (c :: tail).head?, digitValue x = none := by
    intro x hx
    simp only [List.head?_cons, Option.mem_def, Option.some.injEq] at hx
    rw [← hx]
    exact hdc
  simp only [parsePair, renderPair, List.append_assoc, List.cons_append,
    parseString_renderString, if_true, parseVal_renderVal p.2 (c :: tail) hd, Option.map_some']

theorem taskOfPairs_append (a b : List (String × Val)) (t : Task) :
    taskOfPairs (a ++ b) t = (taskOfPairs a t).bind (taskOfPairs b) := by
  induction a generalizing t with
  | nil => rfl
  | cons p rest ih =>
    cases h : setField t p with
    | none => simp [taskOfPairs, h]
    | some t1 => simp [taskOfPairs, h, ih]

theorem taskOfPairs_field (key : String) (upd : Task → Val → Task)
    (h : ∀ t v, setField t (key, v) = some (upd t v)) (o : Option Val) (t : Task) :
    taskOfPairs (o.toList.map (fun v => (key, v))) t =
      some (match o with
        | some v => upd t v
        | none => t) := by
  cases o with
  | none => rfl
  | some v => simp [taskOfPairs, h t v]

theorem taskOfPairs_taskPairs (t : Task) : taskOfPairs (taskPairs t) {} = some t := by
  obtain ⟨id, createdAt, status, title, description, priority, label, dueDate⟩ := t
  simp only [taskPairs, taskOfPairs_append]
  rw [taskOfPairs_field "id" (fun t v => { t with id := some v })
    (fun t v => by simp [setField]) id]
  rw [Option.some_bind, taskOfPairs_field "createdAt" (fun t v => { t with createdAt := some v })
    (fun t v => by simp [setField]) createdAt]
  rw [Option.some_bind, taskOfPairs_field "status" (fun t v => { t with status := some v })
    (fun t v => by simp [setField]) status]
  rw [Option.some_bind, taskOfPairs_field "title" (fun t v => { t with title := some v })
    (fun t v => by simp [setField]) title]
  rw [Option.some_bind,
    taskOfPairs_field "description" (fun t v => { t with description := some v })
      (fun t v => by simp [setField]) description]
  rw [Option.some_bind, taskOfPairs_field "priority" (fun t v => { t with priority := some v })
    (fun t v => by simp [setField]) priority]
  rw [Option.some_bind, taskOfPairs_field "label" (fun t v => { t with label := some v })
    (fun t v => by simp [setField]) label]
  rw [Option.some_bind, taskOfPairs_field "dueDate" (fun t v => { t with dueDate := some v })
    (fun t v => by simp [setField]) dueDate]
  cases id <;> cases createdAt <;> cases status <;> cases title <;> cases description <;>
    cases priority <;> cases label <;> cases dueDate <;> rfl

theorem parseTask_renderTask (t : Task) (tail : List Char) :
    parseTask (renderTask t ++ tail) = some (t, tail) := by
  have h := parseList_renderList parsePair renderPair lbrace rbrace (by decide) (taskPairs t)
    (fun p _ c tl hc => parsePair_renderPair p c tl hc)
    (fun p _ => ⟨quote, _, rfl, by decide⟩) tail
  simp only [parseTask, renderTask, h, taskOfPairs_taskPairs, Option.map_some']

theorem parseBucket_renderBucket (ts : List Task) (tail : List Char) :
    parseList parseTask lbracket rbracket (renderBucket ts ++ tail) = some (ts, tail) :=
  parseList_renderList parseTask renderTask lbracket rbracket (by decide) ts
    (fun t _ c tl _ => parseTask_renderTask t (c :: tl))
    (fun t _ => ⟨lbrace, _, rfl, by decide⟩) tail

theorem parseEntry_renderEntry (e : String × List Task) (tail : List Char) :
    parseEntry (renderEntry e ++ tail) = some (e, tail) := by
  simp only [parseEntry, renderEntry, List.append_assoc, List.cons_append,
    parseString_renderString, if_true, parseBucket_renderBucket, Option.map_some']

theorem getBucket_none_of_not_mem (c : Collection) (key : String) (h : key ∉ keys c) :
    getBucket c key = none := by
  induction c with
  | nil => rfl
  | cons e rest ih =>
    obtain ⟨k, ts⟩ := e
    simp only [keys, List.map_cons, List.mem_cons, not_or] at h
    have hk : ¬ k = key := fun e => h.1 e.symm
    simp only [getBucket, hk, if_false]
    exact ih h.2

theorem foldl_insertBucket (entries acc : Collection)
    (h : (keys (acc ++ entries)).Nodup) : entries.foldl insertBucket acc = acc ++ entries := by
  induction entries generalizing acc with
  | nil => simp
  | cons e rest ih =>
    have hnot : e.1 ∉ keys acc := by
      simp only [keys, List.map_append, List.map_cons] at h
      have := (List.nodup_append.mp h).2.2
      intro hmem
      exact this hmem (List.mem_cons_self _ _)
    have hins : insertBucket acc e = acc ++ [e] := by
      simp [insertBucket, getBucket_none_of_not_mem acc e.1 hnot]
    rw [List.foldl_cons, hins, ih (acc ++ [e]) (by simpa using h)]
    simp

theorem parse_stringify (data : Collection) (h : (keys data).Nodup) :
    parse (stringify data) = some data := by
  have hp := parseList_renderList parseEntry renderEntry lbrace rbrace (by decide) data
    (fun e _ c tl _ => parseEntry_renderEntry e (c :: tl))
    (fun e _ => ⟨quote, _, rfl, by decide⟩) []
  simp only [List.append_nil] at hp
  simp only [parse, stringify, hp]
  rw [foldl_insertBucket data [] (by simpa using h)]
  rfl

theorem stringify_ne_empty (data : Collection) : stringify data ≠ "" := by
  intro h
  have : (stringify data).data = [] := by rw [h]
  simp [stringify, renderList] at this

/-- C13: for every collection over the three status keys and a storage medium
that accepts the write, `save` returns true, the medium then holds the JSON
text of the collection, and `load` reads from it the collection that was
saved: the same bucket keys in the same order, the same tasks in the same
order in each bucket, the same properties with the same values. -/
theorem save_load_roundtrip (storage : Storage) (data : Collection)
    (hkeys : List.Perm (keys data) statusKeys) (haccepts : storage.accepts = true) :
    (save storage data).2 = true ∧
    (save storage data).1.item = some (stringify data) ∧
    load (save storage data).1 = some data := by
  have hnd : (keys data).Nodup := hkeys.nodup_iff.mpr (by decide)
  simp [save, haccepts, load, stringify_ne_empty, parse_stringify data hnd]

/-- C13 at the three-task board and an empty storage that accepts writes. -/
theorem save_load_roundtrip_witness :
    List.Perm (keys threeTaskBoard) statusKeys ∧
    (save ⟨none, true⟩ threeTaskBoard).2 = true ∧
    load (save ⟨none, true⟩ threeTaskBoard).1 = some threeTaskBoard :=
  ⟨List.Perm.refl _,
    (save_load_roundtrip ⟨none, true⟩ threeTaskBoard (List.Perm.refl _) rfl).1,
    (save_load_roundtrip ⟨none, true⟩ threeTaskBoard (List.Perm.refl _) rfl).2.2⟩

/-! ## C12: a save that fails -/

theorem save_full (storage : Storage) (data : Collection) (h : storage.accepts = false) :
    save storage data = (storage, false) := by
  simp [save, h]

theorem renderTasks_events (tasks : Collection) (e : UiEvent) (h : e ∈ renderTasks tasks) :
    e = UiEvent.rendered tasks ∨ e = UiEvent.message "Error rendering tasks" := by
  unfold renderTasks at h
  split at h
  · split_ifs at h
    · left; simpa using h
    · right; simpa using h
  · right; simpa using h

theorem handleTaskMove_effects [Engine] (tasks : Collection) (filters : FilterSet) (taskId : Val)
    (newStatus : String) (clock : Clock) :
    (handleTaskMove tasks filters taskId newStatus clock).2 = [] ∨
    (handleTaskMove tasks filters taskId newStatus clock).2 =
      [Effect.save (handleTaskMove tasks filters taskId newStatus clock).1] ∨
    ∃ filtered, (handleTaskMove tasks filters taskId newStatus clock).2 =
      [Effect.save (handleTaskMove tasks filters taskId newStatus clock).1,
       Effect.render filtered] := by
  unfold handleTaskMove
  cases getTaskById tasks taskId with
  | none => left; rfl
  | some t =>
    simp only
    split_ifs with hs
    · left; rfl
    · cases getBucket (removeTask tasks taskId).1 (toKey t.status) with
      | none => left; rfl
      | some bucket =>
        simp only
        generalize addTask _ _ newStatus clock = added
        obtain ⟨c1, o⟩ := added
        cases o with
        | none => left; rfl
        | some stored =>
          simp only
          cases filterTasks filters c1 with
          | none => right; left; rfl
          | some filtered => right; right; exact ⟨filtered, rfl⟩

theorem handleTaskSubmit_full (app : App) (formData : Option Fields) (clock : Clock)
    (hfull : app.storage.accepts = false) :
    (app.handleTaskSubmit formData clock).storage = app.storage := by
  unfold App.handleTaskSubmit
  cases formData with
  | none => rfl
  | some fields =>
    simp only
    split
    · simp [save_full _ _ hfull]
    · rfl

theorem handleTaskSubmit_shows (app : App) (storage2 : Storage) (formData : Option Fields)
    (clock : Clock) :
    ({ app with storage := storage2 }.handleTaskSubmit formData clock).shows =
      (app.handleTaskSubmit formData clock).shows := by
  unfold App.handleTaskSubmit
  cases formData with
  | none => rfl
  | some fields =>
    simp only
    split <;> rfl

theorem handleTaskSubmit_messages (app : App) (formData : Option Fields) (clock : Clock)
    (text : String) (h : UiEvent.message text ∈ (app.handleTaskSubmit formData clock).ui) :
    UiEvent.message text ∈ app.ui ∨ text = "Error rendering tasks" := by
  unfold App.handleTaskSubmit at h
  cases formData with
  | none => exact Or.inl h
  | some fields =>
    simp only at h
    split at h
    · simp only [List.mem_append, List.mem_singleton] at h
      rcases h with (h | h) | h
      · exact Or.inl h
      · rcases renderTasks_events _ _ h with h | h
        · exact absurd h (by simp)
        · right; simpa using h
      · exact absurd h (by simp)
    · exact Or.inl h

theorem handleTaskDelete_messages (app : App) (taskId : Val) (confirmed : Bool)
    (text : String) (h : UiEvent.message text ∈ (app.handleTaskDelete taskId confirmed).ui) :
    UiEvent.message text ∈ app.ui ∨ text = "Error rendering tasks" := by
  unfold App.handleTaskDelete at h
  cases confirmed with
  | false => exact Or.inl h
  | true =>
    simp only [if_true, List.mem_append] at h
    rcases h with h | h
    · exact Or.inl h
    · rcases renderTasks_events _ _ h with h | h
      · exact absurd h (by simp)
      · right; simpa using h

theorem handleTaskMove_app [Engine] (app : App) (taskId : Val) (newStatus : String) (clock : Clock) :
    (app.handleTaskMove taskId newStatus clock).tasks =
      (handleTaskMove app.tasks app.filters taskId newStatus clock).1 ∧
    (app.handleTaskMove taskId newStatus clock).editingTaskId = app.editingTaskId ∧
    (app.handleTaskMove taskId newStatus clock).filters = app.filters ∧
    ((app.handleTaskMove taskId newStatus clock).ui = app.ui ∨
      ∃ filtered, (app.handleTaskMove taskId newStatus clock).ui =
        app.ui ++ renderTasks filtered) ∧
    (app.storage.accepts = false →
      (app.handleTaskMove taskId newStatus clock).storage = app.storage) := by
  unfold App.handleTaskMove
  rcases handleTaskMove_effects app.tasks app.filters taskId newStatus clock with
    h | h | ⟨filtered, h⟩
  · rw [h]
    exact ⟨rfl, rfl, rfl, Or.inl rfl, fun _ => rfl⟩
  · rw [h]
    refine ⟨rfl, rfl, rfl, Or.inl rfl, fun hfull => ?_⟩
    simp [App.perform, save_full _ _ hfull]
  · rw [h]
    refine ⟨rfl, rfl, rfl, Or.inr ⟨filtered, rfl⟩, fun hfull => ?_⟩
    simp [App.perform, save_full _ _ hfull]

theorem handleTaskMove_shows [Engine] (app : App) (storage2 : Storage) (taskId : Val)
    (newStatus : String) (clock : Clock) :
    ({ app with storage := storage2 }.handleTaskMove taskId newStatus clock).shows =
      (app.handleTaskMove taskId newStatus clock).shows := by
  unfold App.handleTaskMove
  simp only
  rcases handleTaskMove_effects app.tasks app.filters taskId newStatus clock with
    h | h | ⟨filtered, h⟩ <;> rw [h] <;> rfl

theorem handleTaskMove_messages [Engine] (app : App) (taskId : Val) (newStatus : String)
    (clock : Clock) (text : String)
    (h : UiEvent.message text ∈ (app.handleTaskMove taskId newStatus clock).ui) :
    UiEvent.message text ∈ app.ui ∨ text = "Error rendering tasks" := by
  rcases (handleTaskMove_app app taskId newStatus clock).2.2.2.1 with hui | ⟨filtered, hui⟩
  · rw [hui] at h
    exact Or.inl h
  · rw [hui, List.mem_append] at h
    rcases h with h | h
    · exact Or.inl h
    · rcases renderTasks_events _ _ h with h | h
      · exact absurd h (by simp)
      · right; simpa using h

/-- C12 (as stated, refuted): with a storage medium that is full `save`
returns false, and yet the submit of a new task, the submit of an edited
task, the delete and the move each keep their change in memory and show no
message at all. -/
theorem failed_save_shows_no_warning :
    (save fullStorageApp.storage oneTaskBoard).2 = false ∧
    ((fullStorageApp.handleTaskSubmit (some specFields) ⟨5, "t"⟩).tasks = oneTaskBoard ∧
      (fullStorageApp.handleTaskSubmit (some specFields) ⟨5, "t"⟩).ui.any UiEvent.isMessage
        = false) ∧
    ((fullStorageEditingApp.handleTaskSubmit (some otherFields) ⟨5, "t"⟩).tasks ≠ threeTaskBoard ∧
      (fullStorageEditingApp.handleTaskSubmit (some otherFields) ⟨5, "t"⟩).ui.any
        UiEvent.isMessage = false) ∧
    ((fullStorageBoardApp.handleTaskDelete (Val.num 1) true).tasks ≠ threeTaskBoard ∧
      (fullStorageBoardApp.handleTaskDelete (Val.num 1) true).ui.any UiEvent.isMessage
        = false) ∧
    ((fullStorageBoardApp.handleTaskMove (Val.num 1) "done" ⟨9, "z"⟩).tasks ≠ threeTaskBoard ∧
      (fullStorageBoardApp.handleTaskMove (Val.num 1) "done" ⟨9, "z"⟩).ui.any UiEvent.isMessage
        = false) := by
  decide

/-- C12 (amended): the handlers of submit, delete and move never look at the
value that `save` returns. When the storage medium refuses the write, `save`
returns false, the medium keeps what it held, and the collection, the editing
state and everything shown on the page are what they are with any other
medium: the change stays in memory, the collection is rendered, and no
message about the failed save is shown. The one message these handlers can
show is "Error rendering tasks", from a render that throws. -/
theorem failed_save_is_silent [Engine] (app : App) (formData : Option Fields) (taskId : Val)
    (confirmed : Bool) (newStatus : String) (clock : Clock)
    (hfull : app.storage.accepts = false) :
    (∀ data, (save app.storage data).2 = false) ∧
    ((app.handleTaskSubmit formData clock).storage = app.storage ∧
      (∀ storage2, ({ app with storage := storage2 }.handleTaskSubmit formData clock).shows =
        (app.handleTaskSubmit formData clock).shows) ∧
      (∀ text, UiEvent.message text ∈ (app.handleTaskSubmit formData clock).ui →
        UiEvent.message text ∈ app.ui ∨ text = "Error rendering tasks")) ∧
    ((app.handleTaskDelete taskId confirmed).storage = app.storage ∧
      (app.handleTaskDelete taskId confirmed).tasks =
        (if confirmed then (removeTask app.tasks taskId).1 else app.tasks) ∧
      (∀ storage2, ({ app with storage := storage2 }.handleTaskDelete taskId confirmed).shows =
        (app.handleTaskDelete taskId confirmed).shows) ∧
      (∀ text, UiEvent.message text ∈ (app.handleTaskDelete taskId confirmed).ui →
        UiEvent.message text ∈ app.ui ∨ text = "Error rendering tasks")) ∧
    ((app.handleTaskMove taskId newStatus clock).storage = app.storage ∧
      (app.handleTaskMove taskId newStatus clock).tasks =
        (handleTaskMove app.tasks app.filters taskId newStatus clock).1 ∧
      (∀ storage2,
        ({ app with storage := storage2 }.handleTaskMove taskId newStatus clock).shows =
          (app.handleTaskMove taskId newStatus clock).shows) ∧
      (∀ text, UiEvent.message text ∈ (app.handleTaskMove taskId newStatus clock).ui →
        UiEvent.message text ∈ app.ui ∨ text = "Error rendering tasks")) := by
  refine ⟨fun data => by rw [save_full _ _ hfull], ⟨?_, ?_, ?_⟩, ⟨?_, ?_, ?_, ?_⟩,
    ⟨?_, ?_, ?_, ?_⟩⟩
  · exact handleTaskSubmit_full app formData clock hfull
  · exact fun s2 => handleTaskSubmit_shows app s2 formData clock
  · exact fun text h => handleTaskSubmit_messages app formData clock text h
  · cases confirmed <;> simp [App.handleTaskDelete, save_full _ _ hfull]
  · cases confirmed <;> simp [App.handleTaskDelete]
  · intro s2
    cases confirmed <;> rfl
  · exact fun text h => handleTaskDelete_messages app taskId confirmed text h
  · exact (handleTaskMove_app app taskId newStatus clock).2.2.2.2 hfull
  · exact (handleTaskMove_app app taskId newStatus clock).1
  · exact fun s2 => handleTaskMove_shows app s2 taskId newStatus clock
  · exact fun text h => handleTaskMove_messages app taskId newStatus clock text h

/-- C12 (amended) at the controller with a full storage medium: the submit of
the scenario's field set leaves the medium as it was and the new task in
memory. -/
theorem failed_save_is_silent_witness :
    fullStorageApp.storage.accepts = false ∧
    (fullStorageApp.handleTaskSubmit (some specFields) ⟨5, "t"⟩).storage =
      fullStorageApp.storage ∧
    (fullStorageApp.handleTaskSubmit (some specFields) ⟨5, "t"⟩).tasks = oneTaskBoard :=
  ⟨rfl,
    (failed_save_is_silent fullStorageApp (some specFields) (Val.num 1) true "done" ⟨5, "t"⟩
      rfl).2.1.1,
    by decide⟩

end Kanban
